import Mathlib

/-!
# Verification of the Hybrid GPU Simulator core

Shallow embedding of the simulator's atomic unit (`atomic_unit.sv`),
register file (`register_file.sv`), barrier controller
(`barrier_controller.sv`), memory model (`memory_model.cpp` /
`memory_model.h`), DPI wrapper validation (`dpi_wrapper.cpp`) and
simulation engine (`sim_engine.cpp`), together with theorems settling
the specification's claims about them.

Machine integers (`logic [31:0]`, `uint32_t`) are modelled as `Nat`
with explicit reduction modulo `2^32` at every operation where the
source wraps.
-/

namespace GpuSim

/-- `2^32`, the modulus of 32-bit machine arithmetic. -/
def word_mod : Nat := 4294967296

/-! ## Atomic unit (`atomic_unit.sv`) -/

/-- The `atomic_op_e` enumeration of `atomic_types`. -/
inductive AtomicOp where
  | ADD | SUB | EXCH | MIN | MAX | AND | OR | XOR | CAS | INC | DEC
  deriving DecidableEq, Repr

/-- The `atomic_request_t` record (the `valid` flag is implicit: only
valid requests are modelled). -/
structure AtomicRequest where
  address      : Nat
  data         : Nat
  compare_data : Nat
  op           : AtomicOp
  warp_id      : Nat
  lane_id      : Nat
  deriving Repr

/-- The `atomic_response_t` record. -/
structure AtomicResponse where
  data    : Nat
  warp_id : Nat
  lane_id : Nat
  deriving Repr, DecidableEq

/-- `perform_atomic_op` of `atomic_unit.sv`: the new memory value as a
function of the operation, the original value, the request data and the
compare data.  All SystemVerilog arithmetic on `logic [31:0]` wraps
modulo `2^32`; `<` and `>` are unsigned comparisons. -/
def perform_atomic_op (op : AtomicOp) (orig_val new_val compare_val : Nat) : Nat :=
  match op with
  | .ADD  => (orig_val + new_val) % word_mod
  | .SUB  => (orig_val + (word_mod - new_val % word_mod)) % word_mod
  | .EXCH => new_val
  | .MIN  => if orig_val < new_val then orig_val else new_val
  | .MAX  => if orig_val > new_val then orig_val else new_val
  | .AND  => orig_val.land new_val
  | .OR   => orig_val.lor new_val
  | .XOR  => orig_val.xor new_val
  | .CAS  => if orig_val == compare_val then new_val else orig_val
  | .INC  => (orig_val + 1) % word_mod
  | .DEC  => (orig_val + (word_mod - 1)) % word_mod

/-- The `atomic_state_e` state machine phases of `atomic_unit.sv`. -/
inductive AtomicPhase where
  | IDLE | READ_MEM | COMPUTE | WRITE_MEM | RESPOND
  deriving DecidableEq, Repr

/-- State of the atomic unit pipeline together with the word-addressed
memory it operates on (the memory interface is modelled as ideal:
`mem_ready` and `mem_response_valid` are always asserted when waited
on). -/
structure AtomicState where
  phase       : AtomicPhase
  current_req : AtomicRequest
  temp_data   : Nat
  orig_data   : Nat
  mem         : Nat → Nat

/-- One transition of the `atomic_unit` state machine for an in-flight
request (the `IDLE` acceptance path loads `current_req` and moves to
`READ_MEM`; `READ_MEM` issues the read; `COMPUTE` latches
`mem_read_data` into `orig_data` and `perform_atomic_op` into
`temp_data`; `WRITE_MEM` commits `temp_data`; `RESPOND` emits
`orig_data` and returns to `IDLE`). -/
def atomicStep (s : AtomicState) : AtomicState × Option AtomicResponse :=
  match s.phase with
  | .IDLE      => (s, none)
  | .READ_MEM  => ({ s with phase := .COMPUTE }, none)
  | .COMPUTE   =>
      let read := s.mem s.current_req.address
      ({ s with
          phase     := .WRITE_MEM
          orig_data := read
          temp_data := perform_atomic_op s.current_req.op read
                        s.current_req.data s.current_req.compare_data }, none)
  | .WRITE_MEM =>
      ({ s with
          phase := .RESPOND
          mem   := fun a => if a = s.current_req.address then s.temp_data else s.mem a }, none)
  | .RESPOND   =>
      ({ s with phase := .IDLE },
       some { data := s.orig_data
              warp_id := s.current_req.warp_id
              lane_id := s.current_req.lane_id })

/-- Accept a request in `IDLE` (the uncontended path of the `IDLE`
state) and run the pipeline to the response: `READ_MEM`, `COMPUTE`,
`WRITE_MEM`, `RESPOND`.  Returns the response and the post-memory. -/
def atomicRun (mem : Nat → Nat) (r : AtomicRequest) : AtomicResponse × (Nat → Nat) :=
  let s0 : AtomicState :=
    { phase := .READ_MEM, current_req := r, temp_data := 0, orig_data := 0, mem := mem }
  let s1 := (atomicStep s0).1
  let s2 := (atomicStep s1).1
  let s3 := (atomicStep s2).1
  let out := atomicStep s3
  (out.2.getD { data := 0, warp_id := 0, lane_id := 0 }, out.1.mem)

/-- The specification's table for atomic operations, written from the
spec's words (§4.6): `ADD → pre+d`, `SUB → pre−d`, `EXCH → d`,
`MIN/MAX → min/max(pre,d)`, `AND/OR/XOR → pre ⋄ d`,
`CAS → d if pre=c else pre`, `INC/DEC → pre±1`, all in 32-bit
arithmetic (subtraction is two's-complement, via `Int.emod`). -/
def f_op_spec (op : AtomicOp) (pre d c : Nat) : Nat :=
  match op with
  | .ADD  => (pre + d) % word_mod
  | .SUB  => (((pre : Int) - (d : Int)) % (word_mod : Int)).toNat
  | .EXCH => d
  | .MIN  => min pre d
  | .MAX  => max pre d
  | .AND  => pre.land d
  | .OR   => pre.lor d
  | .XOR  => pre.xor d
  | .CAS  => if pre = c then d else pre
  | .INC  => (pre + 1) % word_mod
  | .DEC  => (((pre : Int) - 1) % (word_mod : Int)).toNat

set_option maxRecDepth 4000 in
/-- The code's `perform_atomic_op` computes exactly the spec's table. -/
theorem perform_atomic_op_eq_spec (op : AtomicOp) (pre d c : Nat) :
    perform_atomic_op op pre d c = f_op_spec op pre d c := by
  cases op
  case ADD => rfl
  case SUB =>
    simp only [perform_atomic_op, f_op_spec, word_mod] at *
    omega
  case EXCH => rfl
  case MIN =>
    simp only [perform_atomic_op, f_op_spec]
    rw [min_def]; split_ifs <;> omega
  case MAX =>
    simp only [perform_atomic_op, f_op_spec]
    rw [max_def]; split_ifs <;> omega
  case AND => rfl
  case OR => rfl
  case XOR => rfl
  case CAS =>
    simp only [perform_atomic_op, f_op_spec, beq_iff_eq]
  case INC => rfl
  case DEC =>
    simp only [perform_atomic_op, f_op_spec, word_mod] at *
    omega

/-- C1: for every atomic request, the value returned in the `RESPOND`
state is the memory contents at the request's address immediately
before the operation (the pre-image), and the memory contents at the
address afterwards equal `f_op(pre, data, compare_data)` as given by
the spec's table. -/
theorem atomic_pre_image_and_post_state (mem : Nat → Nat) (r : AtomicRequest) :
    (atomicRun mem r).1.data = mem r.address ∧
    (atomicRun mem r).2 r.address
      = f_op_spec r.op (mem r.address) r.data r.compare_data := by
  refine ⟨rfl, ?_⟩
  simp [atomicRun, atomicStep, perform_atomic_op_eq_spec]

/-- C9: `atomic.add(a, x)` followed by `atomic.sub(a, x)` leaves the
word at `a` unchanged, and the two operations return `pre` and
`pre + x` respectively (32-bit modular arithmetic). -/
theorem atomic_add_sub_roundtrip (mem : Nat → Nat) (a x w₁ l₁ w₂ l₂ : Nat)
    (hmem : mem a < word_mod) :
    (atomicRun (atomicRun mem ⟨a, x, 0, .ADD, w₁, l₁⟩).2 ⟨a, x, 0, .SUB, w₂, l₂⟩).2 a
        = mem a ∧
    (atomicRun mem ⟨a, x, 0, .ADD, w₁, l₁⟩).1.data = mem a ∧
    (atomicRun (atomicRun mem ⟨a, x, 0, .ADD, w₁, l₁⟩).2 ⟨a, x, 0, .SUB, w₂, l₂⟩).1.data
        = (mem a + x) % word_mod := by
  refine ⟨?_, rfl, ?_⟩ <;>
  · simp only [atomicRun, atomicStep, perform_atomic_op, word_mod] at *
    try simp
    try omega

/-- Closed witness for `atomic_add_sub_roundtrip` at `mem = const 7`,
`a = 16`, `x = 5`. -/
theorem atomic_add_sub_roundtrip_witness :
    (atomicRun (atomicRun (fun _ => 7) ⟨16, 5, 0, .ADD, 0, 0⟩).2 ⟨16, 5, 0, .SUB, 0, 0⟩).2 16
        = 7 ∧
    (atomicRun (fun _ => 7) ⟨16, 5, 0, .ADD, 0, 0⟩).1.data = 7 ∧
    (atomicRun (atomicRun (fun _ => 7) ⟨16, 5, 0, .ADD, 0, 0⟩).2 ⟨16, 5, 0, .SUB, 0, 0⟩).1.data
        = (7 + 5) % word_mod :=
  atomic_add_sub_roundtrip (fun _ => 7) 16 5 0 0 0 0 (by decide)

/-! ## Register file (`register_file.sv`) -/

/-- The `register_entry_t` record of `register_types`. -/
structure RegisterEntry where
  data  : Nat
  valid : Bool
  deriving DecidableEq, Repr

/-- State of the `register_file` module: the storage array
`register_file[warp][reg][thread]`, the scoreboard
`register_busy[warp][reg]`, and the performance counters.  Arrays are
modelled as total functions over indices. -/
structure RFState where
  register_file : Nat → Nat → Nat → RegisterEntry
  register_busy : Nat → Nat → Bool
  read_operations  : Nat
  write_operations : Nat
  bank_conflicts   : Nat

/-- The reset state of the register file: all data `0`, all entries
valid, scoreboard clear, counters zero. -/
def rfReset : RFState where
  register_file := fun _ _ _ => { data := 0, valid := true }
  register_busy := fun _ _ => false
  read_operations := 0
  write_operations := 0
  bank_conflicts := 0

/-- The inputs sampled by the `register_file` module on one clock
edge: the two read-port addresses, the write port, and the scoreboard
clear port. -/
structure RFInput where
  rs1_addr    : Nat
  rs1_warp_id : Nat
  rs2_addr    : Nat
  rs2_warp_id : Nat
  rd_addr        : Nat
  rd_warp_id     : Nat
  rd_data        : Nat → Nat
  rd_thread_mask : Nat
  rd_write_en    : Bool
  clear_busy_reg  : Nat
  clear_busy_warp : Nat
  clear_busy_en   : Bool

/-- `rd_thread_mask[t]`: bit `t` of the 32-bit write thread mask. -/
def maskBit (mask t : Nat) : Bool := mask / 2 ^ t % 2 == 1

/-- The bank-conflict detection `always_comb` block: a conflict when
both read ports name the same nonzero register. -/
def rfBankConflict (i : RFInput) : Bool :=
  i.rs1_addr != 0 && i.rs2_addr != 0 && i.rs1_addr == i.rs2_addr

/-- One clock edge of the `register_file` module (the write port
`always_ff`, the scoreboard `always_ff`, and the performance-monitoring
`always_ff`, which all fire on the same edge).  Note the write path
applies to any `rd_addr`, including register 0. -/
def rfStep (s : RFState) (i : RFInput) : RFState :=
  let store' :=
    if i.rd_write_en then
      fun w r t =>
        if w = i.rd_warp_id ∧ r = i.rd_addr ∧ maskBit i.rd_thread_mask t then
          { data := i.rd_data t, valid := true }
        else s.register_file w r t
    else s.register_file
  let busy₁ :=
    if i.rd_write_en then
      fun w r =>
        if w = i.rd_warp_id ∧ r = i.rd_addr then true else s.register_busy w r
    else s.register_busy
  let busy₂ :=
    if i.clear_busy_en then
      fun w r =>
        if w = i.clear_busy_warp ∧ r = i.clear_busy_reg then false else busy₁ w r
    else busy₁
  { register_file := store'
    register_busy := busy₂
    read_operations := s.read_operations
      + (if i.rs1_addr ≠ 0 then 1 else 0) + (if i.rs2_addr ≠ 0 then 1 else 0)
    write_operations := s.write_operations + (if i.rd_write_en then 1 else 0)
    bank_conflicts := s.bank_conflicts + (if rfBankConflict i then 1 else 0) }

/-- Read-port 1 output: the combinational read (`always_comb`) with the
zero-register override (`rs1_data[t] = 0` when `rs1_addr == 0`). -/
def rfRead1 (s : RFState) (addr warp t : Nat) : Nat :=
  if addr = 0 then 0 else (s.register_file warp addr t).data

/-- Read-port 2 output, identical to port 1. -/
def rfRead2 (s : RFState) (addr warp t : Nat) : Nat :=
  if addr = 0 then 0 else (s.register_file warp addr t).data

/-- C3 counterexample: a write naming register 0 is not silently
discarded — from the reset state, a single write to `(warp 0, reg 0,
lane 0)` sets the busy scoreboard bit of `(warp 0, reg 0)`, which was
clear before. -/
theorem write_r0_sets_busy_counterexample :
    rfReset.register_busy 0 0 = false ∧
    (rfStep rfReset
      { rs1_addr := 0, rs1_warp_id := 0, rs2_addr := 0, rs2_warp_id := 0
        rd_addr := 0, rd_warp_id := 0, rd_data := fun _ => 42
        rd_thread_mask := 1, rd_write_en := true
        clear_busy_reg := 0, clear_busy_warp := 0
        clear_busy_en := false }).register_busy 0 0 = true := by
  constructor <;> rfl

/-- C3 amended: a read of register 0 returns 0 on every lane, and a
write naming register 0 leaves every value observable through the two
read ports unchanged (register 0 still reads 0, and no other register
changes) — but, unlike the claim, it does set the busy scoreboard bit
for `(warp, register 0)` exactly like a write to any other register. -/
theorem register_zero_read_and_write (s : RFState) (i : RFInput)
    (h0 : i.rd_addr = 0) (hw : i.rd_write_en = true)
    (hnc : i.clear_busy_en = false) :
    (∀ warp t, rfRead1 s 0 warp t = 0 ∧ rfRead2 s 0 warp t = 0) ∧
    (∀ r warp t, rfRead1 (rfStep s i) r warp t = rfRead1 s r warp t ∧
                 rfRead2 (rfStep s i) r warp t = rfRead2 s r warp t) ∧
    (rfStep s i).register_busy i.rd_warp_id 0 = true := by
  refine ⟨fun warp t => ⟨rfl, rfl⟩, fun r warp t => ?_, ?_⟩
  · by_cases hr : r = 0
    · subst hr; exact ⟨rfl, rfl⟩
    · constructor <;>
      · simp only [rfRead1, rfRead2, rfStep, hw, h0, hnc, if_neg hr]
        simp only [if_true, Bool.false_eq_true, if_false]
        rw [if_neg]
        rintro ⟨-, h, -⟩
        exact hr h
  · simp [rfStep, hw, h0, hnc]

/-- Closed witness for `register_zero_read_and_write` at the reset
state and a concrete write to register 0. -/
theorem register_zero_read_and_write_witness :
    (∀ warp t, rfRead1 rfReset 0 warp t = 0 ∧ rfRead2 rfReset 0 warp t = 0) ∧
    (∀ r warp t,
      rfRead1 (rfStep rfReset
        { rs1_addr := 0, rs1_warp_id := 0, rs2_addr := 0, rs2_warp_id := 0
          rd_addr := 0, rd_warp_id := 3, rd_data := fun _ => 99
          rd_thread_mask := 5, rd_write_en := true
          clear_busy_reg := 0, clear_busy_warp := 0
          clear_busy_en := false }) r warp t = rfRead1 rfReset r warp t ∧
      rfRead2 (rfStep rfReset
        { rs1_addr := 0, rs1_warp_id := 0, rs2_addr := 0, rs2_warp_id := 0
          rd_addr := 0, rd_warp_id := 3, rd_data := fun _ => 99
          rd_thread_mask := 5, rd_write_en := true
          clear_busy_reg := 0, clear_busy_warp := 0
          clear_busy_en := false }) r warp t = rfRead2 rfReset r warp t) ∧
    (rfStep rfReset
        { rs1_addr := 0, rs1_warp_id := 0, rs2_addr := 0, rs2_warp_id := 0
          rd_addr := 0, rd_warp_id := 3, rd_data := fun _ => 99
          rd_thread_mask := 5, rd_write_en := true
          clear_busy_reg := 0, clear_busy_warp := 0
          clear_busy_en := false }).register_busy 3 0 = true :=
  register_zero_read_and_write rfReset _ rfl rfl rfl

/-! ## Barrier controller (`barrier_controller.sv`)

Warp masks are bit vectors of width `WARPS_PER_BLOCK`, modelled as
`Nat` bitmasks.  All right-hand-side reads of one clock edge see the
pre-edge state (nonblocking assignment semantics); when several
branches assign the same register in one edge, the assignment latest
in program order wins. -/

/-- The `barrier_state_e` enumeration of `barrier_types`. -/
inductive BarrierState where
  | IDLE | COLLECTING | RELEASING | TIMEOUT | ERROR
  deriving DecidableEq, Repr

/-- The `barrier_entry_t` tracking structure. -/
structure BarrierEntry where
  barrier_id     : Nat
  block_id       : Nat
  arrived_warps  : Nat
  expected_warps : Nat
  thread_masks   : Nat → Nat
  active         : Bool
  cycle_counter  : Nat

/-- Registered state of the `barrier_controller` module. -/
structure BCState where
  table    : Nat → BarrierEntry
  states   : Nat → BarrierState
  free     : Nat → Bool
  complete : Nat → Bool
  barrier_count       : Nat
  stalled_cycle_count : Nat
  release_barrier_id : Nat
  release_block_id   : Nat
  release_warp_mask  : Nat
  release_valid      : Bool
  release_barrier_id_next : Nat
  release_block_id_next   : Nat
  release_warp_mask_next  : Nat
  release_valid_next      : Bool
  arrive_ready : Bool

/-- Inputs sampled by the barrier controller on one clock edge. -/
structure BCInput where
  arrive_barrier_id  : Nat
  arrive_thread_mask : Nat
  arrive_block_id    : Nat
  arrive_warp_id     : Nat
  arrive_valid       : Bool
  release_ready      : Bool

/-- The reset state (`!rst_n` branch): every entry free and inactive
with zeroed masks, all counters and release registers cleared.
Registers the reset block does not touch (`barrier_id`, `block_id`,
`thread_masks`, `arrive_ready`, `barrier_complete`) are taken as `0`,
`0` and ready. -/
def bcReset : BCState where
  table := fun _ =>
    { barrier_id := 0, block_id := 0, arrived_warps := 0, expected_warps := 0
      thread_masks := fun _ => 0, active := false, cycle_counter := 0 }
  states := fun _ => .IDLE
  free := fun _ => true
  complete := fun _ => false
  barrier_count := 0
  stalled_cycle_count := 0
  release_barrier_id := 0
  release_block_id := 0
  release_warp_mask := 0
  release_valid := false
  release_barrier_id_next := 0
  release_block_id_next := 0
  release_warp_mask_next := 0
  release_valid_next := false
  arrive_ready := true

/-- `find_free_barrier`: the lowest free entry index, if any. -/
def find_free_barrier (mb : Nat) (s : BCState) : Option Nat :=
  (List.range mb).find? fun i => s.free i

/-- `find_barrier`: the lowest non-free active entry matching the
`(barrier_id, block_id)` identity, if any. -/
def find_barrier (mb : Nat) (s : BCState) (bid blk : Nat) : Option Nat :=
  (List.range mb).find? fun i =>
    !s.free i && (s.table i).active &&
    (s.table i).barrier_id == bid && (s.table i).block_id == blk

/-- `is_barrier_complete`: all expected warps have arrived and the
expected set is non-empty. -/
def is_barrier_complete (s : BCState) (i : Nat) : Bool :=
  (s.table i).arrived_warps == (s.table i).expected_warps &&
  (s.table i).expected_warps != 0

/-- Setting bit `w` of a `WARPS_PER_BLOCK`-wide mask: an out-of-range
bit-select write is ignored. -/
def setWarpBit (wpb mask w : Nat) : Nat :=
  if w < wpb then mask.lor (2 ^ w) else mask

/-- The per-entry state-machine case of the main `always_ff` loop,
executed for ascending `i`; reads come from the pre-edge state `s`,
writes accumulate in `acc`. -/
def bcEntryUpdate (s : BCState) (inp : BCInput) (acc : BCState) (i : Nat) : BCState :=
  if s.free i = true ∨ (s.table i).active = false then acc
  else
    match s.states i with
    | .IDLE => acc
    | .COLLECTING =>
        let acc :=
          { acc with
              table := fun j => if j = i then
                  { acc.table j with cycle_counter := (s.table i).cycle_counter + 1 }
                else acc.table j
              stalled_cycle_count := s.stalled_cycle_count + 1 }
        if is_barrier_complete s i then
          { acc with
              states := fun j => if j = i then .RELEASING else acc.states j
              complete := fun j => if j = i then true else acc.complete j
              release_barrier_id_next := (s.table i).barrier_id
              release_block_id_next := (s.table i).block_id
              release_warp_mask_next := (s.table i).arrived_warps
              release_valid_next := true }
        else acc
    | .RELEASING =>
        if inp.release_ready && s.release_valid &&
           s.release_barrier_id == (s.table i).barrier_id &&
           s.release_block_id == (s.table i).block_id then
          { acc with
              free := fun j => if j = i then true else acc.free j
              table := fun j => if j = i then
                  { acc.table j with active := false }
                else acc.table j
              states := fun j => if j = i then .IDLE else acc.states j
              barrier_count := s.barrier_count + 1
              complete := fun j => if j = i then false else acc.complete j }
        else acc
    | .TIMEOUT =>
        { acc with states := fun j => if j = i then .RELEASING else acc.states j }
    | .ERROR =>
        { acc with
            states := fun j => if j = i then .IDLE else acc.states j
            free := fun j => if j = i then true else acc.free j
            table := fun j => if j = i then
                { acc.table j with active := false }
              else acc.table j }

/-- The arrival-processing block at the end of the main `always_ff`:
reads come from the pre-edge state `s`, writes merge into `acc`. -/
def bcArrival (wpb mb : Nat) (s : BCState) (inp : BCInput) (acc : BCState) : BCState :=
  if inp.arrive_valid && s.arrive_ready then
    match find_barrier mb s inp.arrive_barrier_id inp.arrive_block_id with
    | some bi =>
        let w := inp.arrive_warp_id
        let acc :=
          { acc with
              table := fun j => if j = bi then
                  { acc.table j with
                      arrived_warps := setWarpBit wpb (acc.table j).arrived_warps w
                      thread_masks := fun t =>
                        if t = w ∧ w < wpb then inp.arrive_thread_mask
                        else (acc.table j).thread_masks t }
                else acc.table j }
        if is_barrier_complete s bi then
          { acc with
              states := fun j => if j = bi then .RELEASING else acc.states j
              complete := fun j => if j = bi then true else acc.complete j
              release_barrier_id_next := (s.table bi).barrier_id
              release_block_id_next := (s.table bi).block_id
              release_warp_mask_next := (s.table bi).arrived_warps
              release_valid_next := true }
        else acc
    | none =>
        match find_free_barrier mb s with
        | some fi =>
            { acc with
                free := fun j => if j = fi then false else acc.free j
                table := fun j => if j = fi then
                    { barrier_id := inp.arrive_barrier_id
                      block_id := inp.arrive_block_id
                      arrived_warps := setWarpBit wpb 0 inp.arrive_warp_id
                      expected_warps := 2 ^ wpb - 1
                      thread_masks := fun t =>
                        if t = inp.arrive_warp_id ∧ inp.arrive_warp_id < wpb then
                          inp.arrive_thread_mask
                        else (acc.table j).thread_masks t
                      active := true
                      cycle_counter := 0 }
                  else acc.table j
                states := fun j => if j = fi then .COLLECTING else acc.states j }
        | none => { acc with arrive_ready := false }
  else acc

/-- One clock edge of the `barrier_controller` (the `rst_n` asserted
branch): defaults and release-register transfer, then the per-entry
state machines for `i = 0, …, MAX_BARRIERS-1`, then arrival
processing. -/
def bcStep (mb wpb : Nat) (s : BCState) (inp : BCInput) : BCState :=
  let s1 := { s with
    arrive_ready := true
    release_barrier_id := s.release_barrier_id_next
    release_block_id := s.release_block_id_next
    release_warp_mask := s.release_warp_mask_next
    release_valid := s.release_valid_next
    release_valid_next := false }
  let s2 := (List.range mb).foldl (bcEntryUpdate s inp) s1
  bcArrival wpb mb s inp s2

/-- The states of the barrier controller reachable from reset. -/
inductive BCReachable (mb wpb : Nat) : BCState → Prop where
  | reset : BCReachable mb wpb bcReset
  | step : ∀ {s} (inp : BCInput), BCReachable mb wpb s →
      BCReachable mb wpb (bcStep mb wpb s inp)

/-- Inductive invariant of a barrier entry: the arrived mask fits in
`WARPS_PER_BLOCK` bits; the expected mask is either still at its reset
value `0` or the full-participation mask `'1`; an entry whose expected
mask is `0` has an empty arrived mask; an active entry always expects
the full warp set. -/
def bcEntryInvariant (wpb : Nat) (e : BarrierEntry) : Prop :=
  e.arrived_warps < 2 ^ wpb ∧
  (e.expected_warps = 0 ∨ e.expected_warps = 2 ^ wpb - 1) ∧
  (e.expected_warps = 0 → e.arrived_warps = 0) ∧
  (e.active = true → e.expected_warps = 2 ^ wpb - 1)

lemma bcEntryUpdate_table (s : BCState) (inp : BCInput) (acc : BCState) (i j : Nat) :
    ((bcEntryUpdate s inp acc i).table j).arrived_warps = (acc.table j).arrived_warps ∧
    ((bcEntryUpdate s inp acc i).table j).expected_warps = (acc.table j).expected_warps ∧
    (((bcEntryUpdate s inp acc i).table j).active = true → (acc.table j).active = true) := by
  unfold bcEntryUpdate
  repeat' split
  all_goals simp_all
  all_goals
    refine ⟨?_, ?_, ?_⟩ <;> split <;> simp_all

lemma bcEntryUpdate_rvn (s : BCState) (inp : BCInput) (acc : BCState) (i : Nat) :
    (bcEntryUpdate s inp acc i).release_valid_next = true ↔
      (acc.release_valid_next = true ∨
        (s.free i = false ∧ (s.table i).active = true ∧ s.states i = .COLLECTING ∧
         is_barrier_complete s i = true)) := by
  unfold bcEntryUpdate
  repeat' split
  all_goals simp_all
  all_goals
    intro h1 h2 _ _
    rcases ‹s.free i = true ∨ (s.table i).active = false› with h | h <;> simp_all

lemma bcFold_table (s : BCState) (inp : BCInput) :
    ∀ (l : List Nat) (acc : BCState) (j : Nat),
    (((l.foldl (bcEntryUpdate s inp) acc).table j).arrived_warps
        = (acc.table j).arrived_warps) ∧
    (((l.foldl (bcEntryUpdate s inp) acc).table j).expected_warps
        = (acc.table j).expected_warps) ∧
    (((l.foldl (bcEntryUpdate s inp) acc).table j).active = true
        → (acc.table j).active = true) := by
  intro l
  induction l with
  | nil => exact fun acc j => ⟨rfl, rfl, id⟩
  | cons i l ih =>
    intro acc j
    obtain ⟨h1, h2, h3⟩ := ih (bcEntryUpdate s inp acc i) j
    obtain ⟨g1, g2, g3⟩ := bcEntryUpdate_table s inp acc i j
    exact ⟨h1.trans g1, h2.trans g2, fun h => g3 (h3 h)⟩

lemma bcFold_rvn (s : BCState) (inp : BCInput) :
    ∀ (l : List Nat) (acc : BCState),
    ((l.foldl (bcEntryUpdate s inp) acc).release_valid_next = true ↔
      (acc.release_valid_next = true ∨
        ∃ i ∈ l, s.free i = false ∧ (s.table i).active = true ∧
          s.states i = .COLLECTING ∧ is_barrier_complete s i = true)) := by
  intro l
  induction l with
  | nil => simp
  | cons i l ih =>
    intro acc
    rw [List.foldl_cons, ih, bcEntryUpdate_rvn]
    constructor
    · rintro (⟨h | h⟩ | ⟨k, hk, h⟩)
      · exact .inl h
      · exact .inr ⟨i, List.mem_cons_self i l, h⟩
      · exact .inr ⟨k, List.mem_cons_of_mem i hk, h⟩
    · rintro (h | ⟨k, hk, h⟩)
      · exact .inl (.inl h)
      · rcases List.mem_cons.mp hk with rfl | hk
        · exact .inl (.inr h)
        · exact .inr ⟨k, hk, h⟩

lemma find_barrier_mem_active (mb : Nat) (s : BCState) (bid blk i : Nat)
    (h : find_barrier mb s bid blk = some i) :
    i < mb ∧ s.free i = false ∧ (s.table i).active = true := by
  have hmem := List.mem_of_find?_eq_some h
  have hp := List.find?_some h
  simp only [Bool.and_eq_true, Bool.not_eq_true'] at hp
  exact ⟨List.mem_range.mp hmem, hp.1.1.1, hp.1.1.2⟩

lemma bcEntryUpdate_inv (wpb : Nat) (s : BCState) (inp : BCInput) (acc : BCState) (i : Nat)
    (h : ∀ j, bcEntryInvariant wpb (acc.table j)) :
    ∀ j, bcEntryInvariant wpb ((bcEntryUpdate s inp acc i).table j) := by
  intro j
  obtain ⟨h1, h2, h3⟩ := bcEntryUpdate_table s inp acc i j
  obtain ⟨a1, a2, a3, a4⟩ := h j
  refine ⟨?_, ?_, ?_, ?_⟩
  · rw [h1]; exact a1
  · rw [h2]; exact a2
  · rw [h1, h2]; exact a3
  · rw [h2]; exact fun ha => a4 (h3 ha)

lemma bcFold_inv (wpb : Nat) (s : BCState) (inp : BCInput) :
    ∀ (l : List Nat) (acc : BCState),
    (∀ j, bcEntryInvariant wpb (acc.table j)) →
    ∀ j, bcEntryInvariant wpb ((l.foldl (bcEntryUpdate s inp) acc).table j) := by
  intro l
  induction l with
  | nil => exact fun acc h => h
  | cons i l ih => exact fun acc h => ih _ (bcEntryUpdate_inv wpb s inp acc i h)

lemma setWarpBit_lt (wpb mask w : Nat) (h : mask < 2 ^ wpb) :
    setWarpBit wpb mask w < 2 ^ wpb := by
  unfold setWarpBit
  split
  · exact Nat.bitwise_lt_two_pow h
      (Nat.pow_lt_pow_right (by norm_num) (by assumption))
  · exact h

lemma setWarpBit_zero_width (mask w : Nat) : setWarpBit 0 mask w = mask := by
  simp [setWarpBit]

lemma bcArrival_inv (wpb mb : Nat) (s : BCState) (inp : BCInput) (acc : BCState)
    (hs : ∀ j, bcEntryInvariant wpb (s.table j))
    (hacc : ∀ j, bcEntryInvariant wpb (acc.table j))
    (hmask : ∀ j, (acc.table j).arrived_warps = (s.table j).arrived_warps ∧
                  (acc.table j).expected_warps = (s.table j).expected_warps) :
    ∀ j, bcEntryInvariant wpb ((bcArrival wpb mb s inp acc).table j) := by
  intro j
  unfold bcArrival
  by_cases hv : (inp.arrive_valid && s.arrive_ready) = true
  · rw [if_pos hv]
    cases hfb : find_barrier mb s inp.arrive_barrier_id inp.arrive_block_id with
    | some bi =>
      dsimp only
      obtain ⟨hbi, hfree, hact⟩ := find_barrier_mem_active mb s _ _ bi hfb
      have hexp : (s.table bi).expected_warps = 2 ^ wpb - 1 := (hs bi).2.2.2 hact
      by_cases hj : j = bi
      · subst hj
        obtain ⟨a1, a2, a3, a4⟩ := hacc j
        have hexp' : (acc.table j).expected_warps = 2 ^ wpb - 1 := (hmask j).2.trans hexp
        split <;>
        · dsimp only
          rw [if_pos rfl]
          refine ⟨?_, ?_, ?_, ?_⟩ <;> dsimp only
          · exact setWarpBit_lt wpb _ _ a1
          · exact .inr hexp'
          · intro h0
            have hwpb : wpb = 0 := by
              by_contra hne
              have := Nat.one_lt_two_pow_iff.mpr hne
              omega
            subst hwpb
            rw [setWarpBit_zero_width]
            exact a3 h0
          · intro _; exact hexp'
      · split <;>
        · dsimp only
          rw [if_neg hj]
          exact hacc j
    | none =>
      dsimp only
      cases hff : find_free_barrier mb s with
      | some fi =>
        dsimp only
        by_cases hj : j = fi
        · subst hj
          rw [if_pos rfl]
          refine ⟨?_, ?_, ?_, ?_⟩ <;> dsimp only
          · exact setWarpBit_lt wpb _ _ (Nat.pos_pow_of_pos wpb (by norm_num))
          · exact .inr rfl
          · intro h0
            have hwpb : wpb = 0 := by
              by_contra hne
              have := Nat.one_lt_two_pow_iff.mpr hne
              omega
            subst hwpb
            rw [setWarpBit_zero_width]
          · intro _; rfl
        · rw [if_neg hj]
          exact hacc j
      | none => dsimp only; exact hacc j
  · rw [if_neg hv]; exact hacc j

lemma bcStep_inv (mb wpb : Nat) (s : BCState) (inp : BCInput)
    (hs : ∀ j, bcEntryInvariant wpb (s.table j)) :
    ∀ j, bcEntryInvariant wpb ((bcStep mb wpb s inp).table j) := by
  unfold bcStep
  refine bcArrival_inv wpb mb s inp _ hs ?_ ?_
  · exact bcFold_inv wpb s inp (List.range mb) _ hs
  · intro j
    obtain ⟨h1, h2, -⟩ := bcFold_table s inp (List.range mb) _ j
    exact ⟨h1, h2⟩

lemma bcReachable_inv (mb wpb : Nat) (s : BCState) (h : BCReachable mb wpb s) :
    ∀ j, bcEntryInvariant wpb (s.table j) := by
  induction h with
  | reset =>
    intro j
    exact ⟨Nat.pos_pow_of_pos wpb (by norm_num), .inl rfl, fun _ => rfl, by simp [bcReset]⟩
  | step inp _ ih => exact bcStep_inv _ _ _ inp ih

lemma bcArrival_rvn (wpb mb : Nat) (s : BCState) (inp : BCInput) (acc : BCState) :
    ((bcArrival wpb mb s inp acc).release_valid_next = true ↔
      (acc.release_valid_next = true ∨
        (inp.arrive_valid = true ∧ s.arrive_ready = true ∧
          ∃ bi, find_barrier mb s inp.arrive_barrier_id inp.arrive_block_id = some bi ∧
            is_barrier_complete s bi = true))) := by
  unfold bcArrival
  by_cases hv : (inp.arrive_valid && s.arrive_ready) = true
  · rw [if_pos hv]
    rw [Bool.and_eq_true] at hv
    cases hfb : find_barrier mb s inp.arrive_barrier_id inp.arrive_block_id with
    | some bi =>
      dsimp only
      by_cases hc : is_barrier_complete s bi = true
      · rw [if_pos hc]
        simp only [hv.1, hv.2, true_and, true_iff, iff_true]
        exact .inr ⟨bi, rfl, hc⟩
      · rw [if_neg hc]
        simp only [hv.1, hv.2, true_and]
        constructor
        · exact fun h => .inl h
        · rintro (h | ⟨bi', hbi', hc'⟩)
          · exact h
          · cases hbi'
            exact absurd hc' hc
    | none =>
      dsimp only
      cases hff : find_free_barrier mb s with
      | some fi =>
        dsimp only
        simp only [hv.1, hv.2, true_and]
        constructor
        · exact fun h => .inl h
        · rintro (h | ⟨bi', hbi', -⟩)
          · exact h
          · cases hbi'
      | none =>
        dsimp only
        simp only [hv.1, hv.2, true_and]
        constructor
        · exact fun h => .inl h
        · rintro (h | ⟨bi', hbi', -⟩)
          · exact h
          · cases hbi'
  · rw [if_neg hv]
    rw [Bool.and_eq_true] at hv
    constructor
    · exact fun h => .inl h
    · rintro (h | ⟨h1, h2, -⟩)
      · exact h
      · exact absurd ⟨h1, h2⟩ hv

/-- C2 auxiliary predicate: the cycle's evaluation examines entry `i`
for completion — either `i` is a non-free active entry in `COLLECTING`
(the state-machine loop), or the cycle's arrival handshake finds entry
`i` (the arrival-handling block). -/
def releaseCheckSite (mb : Nat) (s : BCState) (inp : BCInput) (i : Nat) : Prop :=
  (i < mb ∧ s.free i = false ∧ (s.table i).active = true ∧ s.states i = .COLLECTING) ∨
  (inp.arrive_valid = true ∧ s.arrive_ready = true ∧
    find_barrier mb s inp.arrive_barrier_id inp.arrive_block_id = some i)

/-- C2, first half: every entry's arrived mask is bitwise contained in
its expected mask. -/
def ArrivedSubsetExpected (s : BCState) : Prop :=
  ∀ i b, ((s.table i).arrived_warps).testBit b = true →
         ((s.table i).expected_warps).testBit b = true

/-- C2, second half: a release is emitted during a cycle (the
`release_valid_next` pulse that drives `release_valid`) iff some
examined entry satisfies `is_barrier_complete`, i.e. its arrived mask
equals its expected mask and the expected mask is non-zero. -/
def ReleaseEmittedIffComplete (mb wpb : Nat) (s : BCState) : Prop :=
  ∀ inp, ((bcStep mb wpb s inp).release_valid_next = true ↔
    ∃ i, releaseCheckSite mb s inp i ∧ is_barrier_complete s i = true)

lemma bcStep_rvn (mb wpb : Nat) (s : BCState) (inp : BCInput) :
    ((bcStep mb wpb s inp).release_valid_next = true ↔
      ∃ i, releaseCheckSite mb s inp i ∧ is_barrier_complete s i = true) := by
  unfold bcStep
  rw [bcArrival_rvn, bcFold_rvn]
  dsimp only
  constructor
  · rintro ((h | ⟨i, hi, h1, h2, h3, h4⟩) | ⟨h1, h2, bi, hbi, hc⟩)
    · exact absurd h (by simp)
    · exact ⟨i, .inl ⟨List.mem_range.mp hi, h1, h2, h3⟩, h4⟩
    · exact ⟨bi, .inr ⟨h1, h2, hbi⟩, hc⟩
  · rintro ⟨i, (⟨hi, h1, h2, h3⟩ | ⟨h1, h2, h3⟩), hc⟩
    · exact .inl (.inr ⟨i, List.mem_range.mpr hi, h1, h2, h3, hc⟩)
    · exact .inr ⟨h1, h2, i, h3, hc⟩

/-- C2: in every reachable state of the barrier controller, every
entry's arrived warp mask is a subset of its expected warp mask, and a
release event is emitted in a cycle if and only if an examined entry's
arrived mask equals its expected mask and the expected mask is
non-zero (`is_barrier_complete`). -/
theorem barrier_subset_invariant_and_release_iff (mb wpb : Nat) (s : BCState)
    (h : BCReachable mb wpb s) :
    ArrivedSubsetExpected s ∧ ReleaseEmittedIffComplete mb wpb s := by
  constructor
  · intro i b hb
    obtain ⟨a1, a2, a3, -⟩ := bcReachable_inv mb wpb s h i
    rcases a2 with h0 | h1
    · rw [a3 h0] at hb
      simp at hb
    · rw [h1, Nat.testBit_two_pow_sub_one]
      by_cases hbw : b < wpb
      · simpa using hbw
      · exfalso
        have hlt : (s.table i).arrived_warps < 2 ^ b :=
          lt_of_lt_of_le a1 (Nat.pow_le_pow_right (by norm_num) (le_of_not_lt hbw))
        rw [Nat.testBit_lt_two_pow hlt] at hb
        exact Bool.false_ne_true hb
  · exact fun inp => bcStep_rvn mb wpb s inp

/-- Closed witness for `barrier_subset_invariant_and_release_iff` at
the reset state with `MAX_BARRIERS = 16`, `WARPS_PER_BLOCK = 32`. -/
theorem barrier_subset_invariant_and_release_iff_witness :
    ArrivedSubsetExpected bcReset ∧ ReleaseEmittedIffComplete 16 32 bcReset :=
  barrier_subset_invariant_and_release_iff 16 32 bcReset BCReachable.reset

/-! ## Memory model (`memory_model.h` / `memory_model.cpp`)

The cache-line word array `data[line_size/4]` is modelled as a total
function from word index to word; `main_memory_`, an
`unordered_map<uint32_t,uint32_t>` whose `operator[]` default-inserts
`0`, is modelled as a total function from address to word with default
`0`.  A C `assert` is modelled as `Option`: a failed assertion aborts
the operation (`none`). -/

/-- The `CacheLine` structure of `memory_model.h`. -/
structure CacheLine where
  tag         : Nat
  data        : Nat → Nat
  valid       : Bool
  dirty       : Bool
  last_access : Nat

/-- A freshly constructed cache line (`CacheLine(line_size_bytes)`). -/
def freshCacheLine : CacheLine :=
  { tag := 0, data := fun _ => 0, valid := false, dirty := false, last_access := 0 }

/-- The `CacheSet` structure: an ordered sequence of ways. -/
structure CacheSet where
  ways : List CacheLine

/-- The `CacheConfig` structure. -/
structure CacheConfig where
  total_size     : Nat
  line_size      : Nat
  associativity  : Nat
  num_banks      : Nat
  memory_latency : Nat

/-- State of a `MemoryModel` object. -/
structure MMState where
  config        : CacheConfig
  sets          : List CacheSet
  main_memory   : Nat → Nat
  stats_reads      : Nat
  stats_writes     : Nat
  stats_hits       : Nat
  stats_misses     : Nat
  stats_evictions  : Nat
  current_cycle    : Nat
  access_history   : List (Nat × Nat × Bool × Nat)

/-- `MAX_HISTORY_SIZE`. -/
def MAX_HISTORY_SIZE : Nat := 1000

/-- The `MemoryModel` constructor: 8-way associativity, 8 banks,
`num_sets = cache_size / (line_size * associativity)` fresh sets. -/
def mmNew (cache_size line_size memory_latency : Nat) : MMState :=
  let cfg : CacheConfig :=
    { total_size := cache_size, line_size := line_size, associativity := 8
      num_banks := 8, memory_latency := memory_latency }
  { config := cfg
    sets := (List.range (cache_size / (line_size * 8))).map fun _ =>
      { ways := (List.range 8).map fun _ => freshCacheLine }
    main_memory := fun _ => 0
    stats_reads := 0, stats_writes := 0, stats_hits := 0, stats_misses := 0
    stats_evictions := 0, current_cycle := 0, access_history := [] }

/-- `MemoryModel::initialize`: clear every line, main memory, the
statistics, the cycle counter and the access history. -/
def mmInitialize (s : MMState) : MMState :=
  { s with
      sets := s.sets.map fun st =>
        { ways := st.ways.map fun _ => freshCacheLine }
      main_memory := fun _ => 0
      stats_reads := 0, stats_writes := 0, stats_hits := 0, stats_misses := 0
      stats_evictions := 0, current_cycle := 0, access_history := [] }

/-- `num_sets` as computed throughout `memory_model.cpp`. -/
def mmNumSets (cfg : CacheConfig) : Nat :=
  cfg.total_size / (cfg.line_size * cfg.associativity)

/-- Fuel-driven floor base-2 logarithm (structurally recursive so that
it evaluates definitionally). -/
def log2F : Nat → Nat → Nat
  | 0, _ => 0
  | fuel + 1, n => if n ≥ 2 then log2F fuel (n / 2) + 1 else 0

/-- `(uint32_t)std::log2(x)`: the floor base-2 logarithm. -/
def log2u32 (n : Nat) : Nat := log2F n n

lemma log2F_eq_log2 : ∀ (fuel n : Nat), n ≤ fuel → log2F fuel n = Nat.log2 n := by
  intro fuel
  induction fuel with
  | zero =>
    intro n hn
    have hn0 : n = 0 := by omega
    subst hn0
    rw [Nat.log2]
    rw [if_neg (by omega)]
    rfl
  | succ fuel ih =>
    intro n hn
    rw [Nat.log2]
    unfold log2F
    by_cases h2 : n ≥ 2
    · rw [if_pos h2, if_pos h2, ih (n / 2) (by omega)]
    · rw [if_neg h2, if_neg h2]

/-- `log2u32` agrees with the floor base-2 logarithm `Nat.log2`. -/
lemma log2u32_eq_log2 (n : Nat) : log2u32 n = Nat.log2 n :=
  log2F_eq_log2 n n (le_refl n)

/-- `MemoryModel::get_set_index` (with `set_bits = log2 num_sets` and
`offset_bits = log2 line_size`). -/
def get_set_index (cfg : CacheConfig) (address : Nat) : Nat :=
  (address >>> log2u32 cfg.line_size) &&& ((1 <<< log2u32 (mmNumSets cfg)) - 1)

/-- `MemoryModel::get_tag`. -/
def get_tag (cfg : CacheConfig) (address : Nat) : Nat :=
  address >>> (log2u32 cfg.line_size + log2u32 (mmNumSets cfg))

/-- `MemoryModel::get_offset`. -/
def get_offset (cfg : CacheConfig) (address : Nat) : Nat :=
  address &&& (cfg.line_size - 1)

/-- `MemoryModel::get_bank_index`. -/
def get_bank_index (cfg : CacheConfig) (address : Nat) : Nat :=
  (address >>> 2) % cfg.num_banks

/-- `MemoryModel::translate_address`: identity mapping. -/
def translate_address (address : Nat) : Nat := address

/-- `MemoryModel::check_alignment`. -/
def check_alignment (address size : Nat) : Bool :=
  address % size == 0

/-- `MemoryModel::calculate_access_latency`. -/
def calculate_access_latency (cfg : CacheConfig) (is_hit : Bool) : Nat :=
  if is_hit then 1 else cfg.memory_latency + cfg.line_size / 16

/-- `MemoryModel::check_bank_conflicts`: always `0` in the source. -/
def check_bank_conflicts (_cfg : CacheConfig) (_address : Nat) : Nat := 0

/-- `MemoryModel::select_victim`: the first invalid way; if all ways
are valid, the way with the minimum `last_access`, scanning from way 1
and replacing only on strictly smaller values (so ties keep the lowest
way index). -/
def select_victim (assoc : Nat) (st : CacheSet) : Nat :=
  match (List.range assoc).find? (fun i => !(st.ways.getD i freshCacheLine).valid) with
  | some i => i
  | none =>
      ((List.range' 1 (assoc - 1)).foldl
        (fun p i =>
          if (st.ways.getD i freshCacheLine).last_access < p.2 then
            (i, (st.ways.getD i freshCacheLine).last_access)
          else p)
        (0, (st.ways.getD 0 freshCacheLine).last_access)).1

/-- The write-back address computed on eviction
(`(victim.tag << (32 - get_tag(0xFFFFFFFF))) | (set_index <<
get_offset(0xFFFFFFFF))`).  The source shifts a `uint32_t` by amounts
that can reach or exceed 32 (undefined behaviour in C++); shift counts
are modelled masked modulo 32 with the result wrapped to 32 bits, as
on the common targets.  No claim depends on this value. -/
def victim_writeback_address (cfg : CacheConfig) (tag set_index : Nat) : Nat :=
  let sub := (32 + word_mod - get_tag cfg 4294967295 % word_mod) % word_mod
  ((tag <<< (sub % 32)) % word_mod) |||
    ((set_index <<< (get_offset cfg 4294967295 % 32)) % word_mod)

/-- Write one line's words back to main memory
(`main_memory_[addr + i*4] = data[i]` for `i < line_size/4`). -/
def writeBackLine (cfg : CacheConfig) (mem : Nat → Nat) (base : Nat)
    (data : Nat → Nat) : Nat → Nat :=
  (List.range (cfg.line_size / 4)).foldl
    (fun m i => fun a => if a = (base + i * 4) % word_mod then data i else m a) mem

/-- `MemoryModel::handle_coherence`: mark every valid line whose tag
matches the address's tag, in every set, as dirty. -/
def handle_coherence (cfg : CacheConfig) (sets : List CacheSet) (address : Nat) :
    List CacheSet :=
  sets.map fun st =>
    { ways := st.ways.map fun w =>
        if w.valid && (w.tag == get_tag cfg address) then { w with dirty := true } else w }

/-- `process_request`, step 1: record the access in the bounded
history. -/
def pr_record_access (s : MMState) (address data : Nat) (is_write : Bool) : MMState :=
  if s.access_history.length < MAX_HISTORY_SIZE then
    { s with access_history :=
        s.access_history ++ [(address, data, is_write, s.current_cycle)] }
  else s

/-- `process_request`, step 2: count the access as a read or a
write. -/
def pr_count_access (s : MMState) (is_write : Bool) : MMState :=
  if is_write then { s with stats_writes := s.stats_writes + 1 }
  else { s with stats_reads := s.stats_reads + 1 }

/-- `process_request`, hit path: update the hit way's `last_access`
and, on a write, its word and dirty bit. -/
def pr_hit_line (line : CacheLine) (cycle offset data : Nat) (is_write : Bool) :
    CacheLine :=
  let line := { line with last_access := cycle }
  if is_write then
    { line with
        data := fun j => if j = offset / 4 then data else line.data j
        dirty := true }
  else line

/-- `process_request`, miss path: the refilled victim line (read from
`mem` at the aligned base, tagged, validated, dirty iff a write, and
on a write the requested word overwritten). -/
def pr_refill_line (cfg : CacheConfig) (victim : CacheLine) (mem : Nat → Nat)
    (base_address tag cycle offset data : Nat) (is_write : Bool) : CacheLine :=
  let victim :=
    { victim with
        data := fun j =>
          if j < cfg.line_size / 4 then mem ((base_address + j * 4) % word_mod)
          else victim.data j
        tag := tag
        valid := true
        dirty := is_write
        last_access := cycle }
  if is_write then
    { victim with
        data := fun j => if j = offset / 4 then data else victim.data j }
  else victim

/-- `process_request`, steps after the alignment assertion: hit
detection, hit/miss counting, the hit or miss/refill path,
`handle_coherence`, and the latency-driven cycle advance. -/
def pr_core (s : MMState) (address data : Nat) (is_write : Bool) : MMState :=
  let physical_address := translate_address address
  let cfg := s.config
  let set_index := get_set_index cfg physical_address
  let tag := get_tag cfg physical_address
  let offset := get_offset cfg physical_address
  let st := s.sets.getD set_index { ways := [] }
  let hit_way := (List.range cfg.associativity).find? fun i =>
    (st.ways.getD i freshCacheLine).valid &&
    ((st.ways.getD i freshCacheLine).tag == tag)
  let s :=
    if hit_way.isSome then { s with stats_hits := s.stats_hits + 1 }
    else { s with stats_misses := s.stats_misses + 1 }
  let latency := calculate_access_latency cfg hit_way.isSome
    + check_bank_conflicts cfg physical_address
  let s :=
    match hit_way with
    | some hw =>
        let line := pr_hit_line (st.ways.getD hw freshCacheLine) s.current_cycle
          offset data is_write
        { s with sets := s.sets.set set_index { ways := st.ways.set hw line } }
    | none =>
        let victim_way := select_victim cfg.associativity st
        let victim := st.ways.getD victim_way freshCacheLine
        let mem :=
          if victim.valid && victim.dirty then
            writeBackLine cfg s.main_memory
              (victim_writeback_address cfg victim.tag set_index) victim.data
          else s.main_memory
        let s :=
          if victim.valid && victim.dirty then
            { s with stats_evictions := s.stats_evictions + 1 }
          else s
        let base_address := physical_address.land (word_mod - cfg.line_size)
        let victim := pr_refill_line cfg victim mem base_address tag
          s.current_cycle offset data is_write
        { s with
            main_memory := mem
            sets := s.sets.set set_index { ways := st.ways.set victim_way victim } }
  let s := { s with sets := handle_coherence cfg s.sets physical_address }
  { s with current_cycle := s.current_cycle + latency }

/-- `MemoryModel::process_request`.  Returns `none` when the alignment
assertion fails, otherwise the returned completion time and the
post-state. -/
def process_request (s : MMState) (address data : Nat) (is_write : Bool) :
    Option (Nat × MMState) :=
  let s := pr_record_access s address data is_write
  let s := pr_count_access s is_write
  if check_alignment address 4 = false then none
  else
    let s := pr_core s address data is_write
    some (s.current_cycle, s)

/-- `MemoryModel::lookup_cache`: pure lookup (no statistics or LRU
update), returning the word on a hit. -/
def lookup_cache (s : MMState) (address : Nat) : Option Nat :=
  let cfg := s.config
  let st := s.sets.getD (get_set_index cfg address) { ways := [] }
  match st.ways.find? (fun w => w.valid && (w.tag == get_tag cfg address)) with
  | some w => some (w.data (get_offset cfg address / 4))
  | none => none

/-- `MemoryModel::read_instruction`: serve from cache, otherwise fill
via `process_request` and look up again. -/
def read_instruction (s : MMState) (address : Nat) : Option (Nat × MMState) :=
  match lookup_cache s address with
  | some d => some (d, s)
  | none =>
      match process_request s address 0 false with
      | some (_, s') => some ((lookup_cache s' address).getD 0, s')
      | none => none

/-- `MemoryModel::update_cache`: write through the first matching
valid way, else fall back to `process_request` as a write. -/
def update_cache (s : MMState) (address data : Nat) : Option MMState :=
  let cfg := s.config
  let set_index := get_set_index cfg address
  let st := s.sets.getD set_index { ways := [] }
  let idx := (List.range st.ways.length).find? fun i =>
    (st.ways.getD i freshCacheLine).valid &&
    ((st.ways.getD i freshCacheLine).tag == get_tag cfg address)
  match idx with
  | some i =>
      let w := st.ways.getD i freshCacheLine
      let w := { w with
          data := fun j => if j = get_offset cfg address / 4 then data else w.data j
          dirty := true
          last_access := s.current_cycle }
      some { s with sets := s.sets.set set_index { ways := st.ways.set i w } }
  | none =>
      match process_request s address data true with
      | some (_, s') => some s'
      | none => none

/-- One way of `MemoryModel::invalidate_cache_line`'s loop: write back
a dirty matching way and invalidate it, keeping other ways. -/
def invalidate_step (cfg : CacheConfig) (set_index tag : Nat)
    (acc : (Nat → Nat) × List CacheLine) (w : CacheLine) :
    (Nat → Nat) × List CacheLine :=
  if w.valid && (w.tag == tag) then
    let mem :=
      if w.dirty then
        writeBackLine cfg acc.1 (victim_writeback_address cfg w.tag set_index) w.data
      else acc.1
    (mem, acc.2 ++ [{ w with valid := false, dirty := false }])
  else (acc.1, acc.2 ++ [w])

/-- `MemoryModel::invalidate_cache_line`: in the address's set, write
back and invalidate every valid way whose tag matches. -/
def invalidate_cache_line (s : MMState) (address : Nat) : MMState :=
  let cfg := s.config
  let set_index := get_set_index cfg address
  let tag := get_tag cfg address
  let st := s.sets.getD set_index { ways := [] }
  let r := st.ways.foldl (invalidate_step cfg set_index tag) (s.main_memory, [])
  { s with
      main_memory := r.1
      sets := s.sets.set set_index { ways := r.2 } }

/-- `MemoryModel::evict_cache_line`: bounds-asserted eviction of one
way — write back if valid and dirty, then invalidate and count. -/
def evict_cache_line (s : MMState) (set_index way : Nat) : Option MMState :=
  if set_index < s.sets.length ∧ way < s.config.associativity then
    let st := s.sets.getD set_index { ways := [] }
    let line := st.ways.getD way freshCacheLine
    let mem :=
      if line.valid && line.dirty then
        writeBackLine s.config s.main_memory
          (victim_writeback_address s.config line.tag set_index) line.data
      else s.main_memory
    some { s with
        main_memory := mem
        sets := s.sets.set set_index
          { ways := st.ways.set way { line with valid := false, dirty := false } }
        stats_evictions := s.stats_evictions + 1 }
  else none

/-- The public mutating operations of `MemoryModel`. -/
inductive MMOp where
  | request (address data : Nat) (is_write : Bool)
  | readInstr (address : Nat)
  | update (address data : Nat)
  | invalidate (address : Nat)
  | evict (set_index way : Nat)
  | init

/-- Run one operation (`none` = a C `assert` aborted). -/
def runMMOp (s : MMState) (op : MMOp) : Option MMState :=
  match op with
  | .request a d w => (process_request s a d w).map (·.2)
  | .readInstr a => (read_instruction s a).map (·.2)
  | .update a d => update_cache s a d
  | .invalidate a => some (invalidate_cache_line s a)
  | .evict i w => evict_cache_line s i w
  | .init => some (mmInitialize s)

/-- Run a sequence of operations. -/
def runMMOps (s : MMState) : List MMOp → Option MMState
  | [] => some s
  | op :: ops =>
      match runMMOp s op with
      | some s' => runMMOps s' ops
      | none => none

lemma find?_range_of_first (p : Nat → Bool) :
    ∀ (n i : Nat), i < n → p i = true → (∀ j, j < i → p j = false) →
    (List.range n).find? p = some i := by
  intro n
  induction n with
  | zero => omega
  | succ n ih =>
    intro i hi hp hmin
    rw [List.range_succ, List.find?_append]
    by_cases hin : i < n
    · rw [ih i hin hp hmin]
      rfl
    · have hieq : i = n := by omega
      subst hieq
      have hnone : (List.range i).find? p = none := by
        rw [List.find?_eq_none]
        intro j hj
        simp only [List.mem_range] at hj
        simp [hmin j hj]
      rw [hnone]
      simp [hp]

lemma lru_fold_spec (la : Nat → Nat) :
    ∀ (k : Nat),
      ((List.range' 1 k).foldl
          (fun p i => if la i < p.2 then (i, la i) else p) (0, la 0)).2
        = la ((List.range' 1 k).foldl
          (fun p i => if la i < p.2 then (i, la i) else p) (0, la 0)).1 ∧
      ((List.range' 1 k).foldl
          (fun p i => if la i < p.2 then (i, la i) else p) (0, la 0)).1 < k + 1 ∧
      (∀ i, i < k + 1 →
        ((List.range' 1 k).foldl
          (fun p i => if la i < p.2 then (i, la i) else p) (0, la 0)).2 ≤ la i) ∧
      (∀ i, i < ((List.range' 1 k).foldl
          (fun p i => if la i < p.2 then (i, la i) else p) (0, la 0)).1 →
        la ((List.range' 1 k).foldl
          (fun p i => if la i < p.2 then (i, la i) else p) (0, la 0)).1 < la i) := by
  intro k
  induction k with
  | zero =>
    simp only [show (List.range' 1 0 : List Nat) = [] from rfl, List.foldl_nil]
    refine ⟨trivial, by omega, ?_, by omega⟩
    intro i hi
    have hz : i = 0 := by omega
    subst hz
    exact le_refl _
  | succ k ih =>
    obtain ⟨ih1, ih2, ih3, ih4⟩ := ih
    rw [List.range'_concat, List.foldl_append]
    simp only [List.foldl_cons, List.foldl_nil, Nat.one_mul]
    generalize hR : (List.range' 1 k).foldl
      (fun p i => if la i < p.2 then (i, la i) else p) (0, la 0) = r
      at ih1 ih2 ih3 ih4 ⊢
    by_cases hlt : la (1 + k) < r.2
    · rw [if_pos hlt]
      dsimp only
      refine ⟨rfl, by omega, ?_, ?_⟩
      · intro i hi
        by_cases hik : i < k + 1
        · exact le_of_lt (lt_of_lt_of_le hlt (ih3 i hik))
        · have hieq : i = 1 + k := by omega
          subst hieq
          exact le_refl _
      · intro i hi
        have hik : i < k + 1 := by omega
        calc la (1 + k) < r.2 := hlt
          _ ≤ la i := ih3 i hik
    · rw [if_neg hlt]
      refine ⟨ih1, by omega, ?_, ih4⟩
      intro i hi
      by_cases hik : i < k + 1
      · exact ih3 i hik
      · have hieq : i = 1 + k := by omega
        subst hieq
        omega

/-- C4: on a cache miss, the victim way is the first invalid way; if
all ways are valid, it is the way with the minimum `last_access`
cycle, with ties broken towards the lowest way index (`select_victim`,
called on the miss path of `process_request`). -/
theorem select_victim_first_invalid_else_lru (assoc : Nat) (st : CacheSet)
    (hpos : 0 < assoc) :
    (∀ i, i < assoc →
      ((st.ways.getD i freshCacheLine).valid = false ∧
        ∀ j, j < i → (st.ways.getD j freshCacheLine).valid = true) →
      select_victim assoc st = i) ∧
    ((∀ i, i < assoc → (st.ways.getD i freshCacheLine).valid = true) →
      (select_victim assoc st < assoc ∧
       (∀ i, i < assoc →
         (st.ways.getD (select_victim assoc st) freshCacheLine).last_access ≤
           (st.ways.getD i freshCacheLine).last_access) ∧
       (∀ i, i < select_victim assoc st →
         (st.ways.getD (select_victim assoc st) freshCacheLine).last_access <
           (st.ways.getD i freshCacheLine).last_access))) := by
  constructor
  · rintro i hi ⟨hinv, hmin⟩
    have hfind : (List.range assoc).find?
        (fun i => !(st.ways.getD i freshCacheLine).valid) = some i := by
      apply find?_range_of_first _ assoc i hi
      · show (!(st.ways.getD i freshCacheLine).valid) = true
        rw [hinv]
        rfl
      · intro j hj
        show (!(st.ways.getD j freshCacheLine).valid) = false
        rw [hmin j hj]
        rfl
    unfold select_victim
    rw [hfind]
  · intro hall
    have hfind : (List.range assoc).find?
        (fun i => !(st.ways.getD i freshCacheLine).valid) = none := by
      rw [List.find?_eq_none]
      intro j hj
      simp only [List.mem_range] at hj
      intro hcon
      have hcon' : (!(st.ways.getD j freshCacheLine).valid) = true := hcon
      rw [hall j hj] at hcon'
      exact Bool.noConfusion hcon'
    unfold select_victim
    rw [hfind]
    have hs := lru_fold_spec (fun i => (st.ways.getD i freshCacheLine).last_access)
      (assoc - 1)
    obtain ⟨h1, h2, h3, h4⟩ := hs
    have hk : assoc - 1 + 1 = assoc := by omega
    rw [hk] at h2 h3
    refine ⟨h2, ?_, ?_⟩
    · intro i hi
      have hle := h3 i hi
      rw [h1] at hle
      exact hle
    · intro i hi
      exact h4 i hi

/-- A concrete 2-way set: way 0 valid with `last_access = 5`, way 1
invalid. -/
def victimDemoSet : CacheSet :=
  { ways := [{ freshCacheLine with valid := true, last_access := 5 }, freshCacheLine] }

/-- Closed witness for `select_victim_first_invalid_else_lru` on
`victimDemoSet`. -/
theorem select_victim_first_invalid_else_lru_witness :
    (∀ i, i < 2 →
      (((victimDemoSet.ways.getD i freshCacheLine).valid = false ∧
        ∀ j, j < i → (victimDemoSet.ways.getD j freshCacheLine).valid = true)) →
      select_victim 2 victimDemoSet = i) ∧
    ((∀ i, i < 2 → (victimDemoSet.ways.getD i freshCacheLine).valid = true) →
      (select_victim 2 victimDemoSet < 2 ∧
       (∀ i, i < 2 →
         (victimDemoSet.ways.getD (select_victim 2 victimDemoSet)
             freshCacheLine).last_access ≤
           (victimDemoSet.ways.getD i freshCacheLine).last_access) ∧
       (∀ i, i < select_victim 2 victimDemoSet →
         (victimDemoSet.ways.getD (select_victim 2 victimDemoSet)
             freshCacheLine).last_access <
           (victimDemoSet.ways.getD i freshCacheLine).last_access))) :=
  select_victim_first_invalid_else_lru 2 victimDemoSet (by decide)

lemma pr_record_access_fields (s : MMState) (a d : Nat) (w : Bool) :
    (pr_record_access s a d w).config = s.config ∧
    (pr_record_access s a d w).sets = s.sets ∧
    (pr_record_access s a d w).stats_reads = s.stats_reads ∧
    (pr_record_access s a d w).stats_writes = s.stats_writes ∧
    (pr_record_access s a d w).stats_hits = s.stats_hits ∧
    (pr_record_access s a d w).stats_misses = s.stats_misses := by
  unfold pr_record_access
  split <;> exact ⟨rfl, rfl, rfl, rfl, rfl, rfl⟩

lemma pr_count_access_fields (s : MMState) (w : Bool) :
    (pr_count_access s w).config = s.config ∧
    (pr_count_access s w).sets = s.sets ∧
    (pr_count_access s w).stats_reads + (pr_count_access s w).stats_writes
      = s.stats_reads + s.stats_writes + 1 ∧
    (pr_count_access s w).stats_hits = s.stats_hits ∧
    (pr_count_access s w).stats_misses = s.stats_misses := by
  unfold pr_count_access
  split <;> refine ⟨rfl, rfl, ?_, rfl, rfl⟩ <;> dsimp only <;> omega

lemma pr_hit_line_valid (line : CacheLine) (cycle offset data : Nat) (is_write : Bool) :
    (pr_hit_line line cycle offset data is_write).valid = line.valid := by
  unfold pr_hit_line
  split <;> rfl

lemma pr_refill_line_valid (cfg : CacheConfig) (victim : CacheLine) (mem : Nat → Nat)
    (base_address tag cycle offset data : Nat) (is_write : Bool) :
    (pr_refill_line cfg victim mem base_address tag cycle offset data is_write).valid
      = true := by
  unfold pr_refill_line
  split <;> rfl

lemma pr_core_shape (s : MMState) (a d : Nat) (w : Bool) :
    (pr_core s a d w).stats_hits + (pr_core s a d w).stats_misses
      = s.stats_hits + s.stats_misses + 1 ∧
    (pr_core s a d w).stats_reads = s.stats_reads ∧
    (pr_core s a d w).stats_writes = s.stats_writes ∧
    ∃ si wi line', line'.valid = true ∧
      (pr_core s a d w).sets = handle_coherence s.config
        (s.sets.set si { ways := (s.sets.getD si { ways := [] }).ways.set wi line' })
        (translate_address a) := by
  unfold pr_core
  dsimp only
  repeat' split
  all_goals first
    | (exfalso; simp_all; done)
    | (rename_i hw heq hsome
       have hp := List.find?_some heq
       simp only [Bool.and_eq_true, beq_iff_eq] at hp
       refine ⟨by dsimp only; omega, rfl, rfl, _, _, _, ?_, rfl⟩
       rw [pr_hit_line_valid]
       exact hp.1)
    | exact ⟨by dsimp only; omega, rfl, rfl, _, _, _, pr_refill_line_valid .., rfl⟩

/-- The consequences of a successful `process_request` needed by the
statistics and cache-line invariants: exactly one hit-or-miss and one
read-or-write counted, and the new sets are `handle_coherence` applied
after replacing one way of one set by a line whose `valid` bit is
set. -/
lemma process_request_shape (s : MMState) (a d : Nat) (w : Bool) (t : Nat) (s' : MMState)
    (h : process_request s a d w = some (t, s')) :
    s'.stats_hits + s'.stats_misses = s.stats_hits + s.stats_misses + 1 ∧
    s'.stats_reads + s'.stats_writes = s.stats_reads + s.stats_writes + 1 ∧
    ∃ si wi line', line'.valid = true ∧
      s'.sets = handle_coherence s.config
        ((s.sets.set si
          { ways := (s.sets.getD si { ways := [] }).ways.set wi line' }))
        (translate_address a) := by
  unfold process_request at h
  dsimp only at h
  by_cases hal : check_alignment a 4 = false
  · rw [if_pos hal] at h
    exact Option.noConfusion h
  · rw [if_neg hal] at h
    simp only [Option.some.injEq, Prod.mk.injEq] at h
    obtain ⟨h1, h2⟩ := h
    subst h2
    obtain ⟨r1, r2, r3, r4, r5, r6⟩ := pr_record_access_fields s a d w
    obtain ⟨c1, c2, c3, c4, c5⟩ :=
      pr_count_access_fields (pr_record_access s a d w) w
    obtain ⟨k1, k2, k3, si, wi, line', hval, hsets⟩ :=
      pr_core_shape (pr_count_access (pr_record_access s a d w) w) a d w
    refine ⟨by omega, by omega, si, wi, line', hval, ?_⟩
    rw [hsets, c1, r1, c2, r2]

/-- Universal invariant 2 of the spec: no line is both invalid and
dirty. -/
def LinesOk (sets : List CacheSet) : Prop :=
  ∀ st ∈ sets, ∀ w ∈ st.ways, w.valid = false → w.dirty = false

/-- Universal invariant 3 of the spec: the statistics balance. -/
def StatsBalanced (s : MMState) : Prop :=
  s.stats_hits + s.stats_misses = s.stats_reads + s.stats_writes

lemma linesOk_handle_coherence (cfg : CacheConfig) (address : Nat)
    (sets : List CacheSet) (h : LinesOk sets) :
    LinesOk (handle_coherence cfg sets address) := by
  intro st hst w hw hv
  unfold handle_coherence at hst
  obtain ⟨st0, hst0, rfl⟩ := List.mem_map.mp hst
  obtain ⟨w0, hw0, rfl⟩ := List.mem_map.mp hw
  by_cases hc : (w0.valid && (w0.tag == get_tag cfg address)) = true
  · rw [if_pos hc] at hv ⊢
    simp only [Bool.and_eq_true] at hc
    have hv' : w0.valid = false := hv
    rw [hc.1] at hv'
    exact Bool.noConfusion hv'
  · rw [if_neg hc] at hv ⊢
    exact h st0 hst0 w0 hw0 hv

lemma waysOk_set (ways : List CacheLine) (i : Nat) (w' : CacheLine)
    (h : ∀ w ∈ ways, w.valid = false → w.dirty = false)
    (h' : w'.valid = false → w'.dirty = false) :
    ∀ w ∈ ways.set i w', w.valid = false → w.dirty = false := by
  intro w hw
  rcases List.mem_or_eq_of_mem_set hw with hmem | rfl
  · exact h w hmem
  · exact h'

lemma linesOk_set (sets : List CacheSet) (i : Nat) (st' : CacheSet)
    (h : LinesOk sets)
    (h' : ∀ w ∈ st'.ways, w.valid = false → w.dirty = false) :
    LinesOk (sets.set i st') := by
  intro st hst
  rcases List.mem_or_eq_of_mem_set hst with hmem | rfl
  · exact h st hmem
  · exact h'

lemma linesOk_getD (sets : List CacheSet) (i : Nat) (h : LinesOk sets) :
    ∀ w ∈ (sets.getD i { ways := [] }).ways, w.valid = false → w.dirty = false := by
  by_cases hi : i < sets.length
  · intro w hw
    rw [List.getD_eq_getElem sets _ hi] at hw
    exact h _ (List.getElem_mem hi) w hw
  · rw [List.getD_eq_default sets _ (by omega)]
    intro w hw
    exact absurd hw (List.not_mem_nil w)

lemma process_request_linesOk (s : MMState) (a d : Nat) (w : Bool) (t : Nat)
    (s' : MMState) (h : process_request s a d w = some (t, s'))
    (hok : LinesOk s.sets) : LinesOk s'.sets := by
  obtain ⟨-, -, si, wi, line', hval, hsets⟩ := process_request_shape s a d w t s' h
  rw [hsets]
  apply linesOk_handle_coherence
  apply linesOk_set _ _ _ hok
  apply waysOk_set _ _ _ (linesOk_getD _ _ hok)
  intro hcon
  rw [hval] at hcon
  exact Bool.noConfusion hcon

lemma read_instruction_effects (s : MMState) (a d : Nat) (s' : MMState)
    (h : read_instruction s a = some (d, s')) :
    s' = s ∨ ∃ t, process_request s a 0 false = some (t, s') := by
  unfold read_instruction at h
  split at h
  · simp only [Option.some.injEq, Prod.mk.injEq] at h
    exact .inl h.2.symm
  · split at h
    · rename_i t s2 heq
      simp only [Option.some.injEq, Prod.mk.injEq] at h
      exact .inr ⟨t, h.2 ▸ heq⟩
    · exact Option.noConfusion h

lemma update_cache_effects (s : MMState) (a d : Nat) (s' : MMState)
    (h : update_cache s a d = some s') :
    (∃ si wi line', line'.valid = true ∧
      s'.stats_reads = s.stats_reads ∧ s'.stats_writes = s.stats_writes ∧
      s'.stats_hits = s.stats_hits ∧ s'.stats_misses = s.stats_misses ∧
      s'.sets = s.sets.set si
        { ways := (s.sets.getD si { ways := [] }).ways.set wi line' }) ∨
    ∃ t, process_request s a d true = some (t, s') := by
  unfold update_cache at h
  dsimp only at h
  split at h
  · rename_i i heq
    have hp := List.find?_some heq
    simp only [Bool.and_eq_true, beq_iff_eq] at hp
    simp only [Option.some.injEq] at h
    subst h
    refine .inl ⟨_, i, _, ?_, rfl, rfl, rfl, rfl, rfl⟩
    exact hp.1
  · split at h
    · rename_i t s2 heq
      simp only [Option.some.injEq] at h
      exact .inr ⟨t, h ▸ heq⟩
    · exact Option.noConfusion h

lemma invalidate_fold_ok (cfg : CacheConfig) (set_index tag : Nat) :
    ∀ (ways : List CacheLine) (mem : Nat → Nat) (acc : List CacheLine),
      (∀ w ∈ acc, w.valid = false → w.dirty = false) →
      (∀ w ∈ ways, w.valid = false → w.dirty = false) →
      ∀ w ∈ (ways.foldl (invalidate_step cfg set_index tag) (mem, acc)).2,
        w.valid = false → w.dirty = false := by
  intro ways
  induction ways with
  | nil => exact fun mem acc hacc _ => hacc
  | cons w0 ways ih =>
    intro mem acc hacc hways
    rw [List.foldl_cons]
    unfold invalidate_step
    split
    · dsimp only
      apply ih _ _ ?_ (fun w hw => hways w (List.mem_cons_of_mem w0 hw))
      intro w hw
      rcases List.mem_append.mp hw with hmem | hmem
      · exact hacc w hmem
      · rw [List.mem_singleton.mp hmem]
        intro _
        rfl
    · apply ih _ _ ?_ (fun w hw => hways w (List.mem_cons_of_mem w0 hw))
      intro w hw
      rcases List.mem_append.mp hw with hmem | hmem
      · exact hacc w hmem
      · rw [List.mem_singleton.mp hmem]
        exact hways w0 (List.mem_cons_self w0 ways)

lemma invalidate_cache_line_linesOk (s : MMState) (a : Nat)
    (hok : LinesOk s.sets) : LinesOk (invalidate_cache_line s a).sets := by
  unfold invalidate_cache_line
  dsimp only
  apply linesOk_set _ _ _ hok
  exact invalidate_fold_ok _ _ _ _ _ _ (fun w hw => absurd hw (List.not_mem_nil w))
    (linesOk_getD _ _ hok)

lemma evict_cache_line_shape (s : MMState) (i wy : Nat) (s' : MMState)
    (h : evict_cache_line s i wy = some s') :
    s'.stats_reads = s.stats_reads ∧ s'.stats_writes = s.stats_writes ∧
    s'.stats_hits = s.stats_hits ∧ s'.stats_misses = s.stats_misses ∧
    ∃ line', line'.valid = false ∧ line'.dirty = false ∧
      s'.sets = s.sets.set i
        { ways := (s.sets.getD i { ways := [] }).ways.set wy line' } := by
  unfold evict_cache_line at h
  split at h
  · simp only [Option.some.injEq] at h
    subst h
    exact ⟨rfl, rfl, rfl, rfl, _, rfl, rfl, rfl⟩
  · exact Option.noConfusion h

lemma mmInitialize_ok (s : MMState) :
    StatsBalanced (mmInitialize s) ∧ LinesOk (mmInitialize s).sets := by
  constructor
  · rfl
  · intro st hst w hw
    unfold mmInitialize at hst
    dsimp only at hst
    obtain ⟨st0, -, rfl⟩ := List.mem_map.mp hst
    obtain ⟨w0, -, rfl⟩ := List.mem_map.mp hw
    intro _
    rfl

lemma invalidate_cache_line_stats (s : MMState) (a : Nat) :
    (invalidate_cache_line s a).stats_reads = s.stats_reads ∧
    (invalidate_cache_line s a).stats_writes = s.stats_writes ∧
    (invalidate_cache_line s a).stats_hits = s.stats_hits ∧
    (invalidate_cache_line s a).stats_misses = s.stats_misses :=
  ⟨rfl, rfl, rfl, rfl⟩

lemma runMMOp_preserves (s : MMState) (op : MMOp) (s' : MMState)
    (h : runMMOp s op = some s')
    (hb : StatsBalanced s) (hl : LinesOk s.sets) :
    StatsBalanced s' ∧ LinesOk s'.sets := by
  cases op with
  | request a d w =>
    simp only [runMMOp, Option.map_eq_some'] at h
    obtain ⟨⟨t, s2⟩, heq, rfl⟩ := h
    obtain ⟨h1, h2, -⟩ := process_request_shape s a d w t s2 heq
    refine ⟨?_, process_request_linesOk s a d w t s2 heq hl⟩
    unfold StatsBalanced at *
    dsimp only
    omega
  | readInstr a =>
    simp only [runMMOp, Option.map_eq_some'] at h
    obtain ⟨⟨dd, s2⟩, heq, rfl⟩ := h
    rcases read_instruction_effects s a dd s2 heq with rfl | ⟨t, hpr⟩
    · exact ⟨hb, hl⟩
    · obtain ⟨h1, h2, -⟩ := process_request_shape s a 0 false t s2 hpr
      refine ⟨?_, process_request_linesOk s a 0 false t s2 hpr hl⟩
      unfold StatsBalanced at *
      dsimp only
      omega
  | update a d =>
    simp only [runMMOp] at h
    rcases update_cache_effects s a d s' h with
      ⟨si, wi, line', hval, e1, e2, e3, e4, hsets⟩ | ⟨t, hpr⟩
    · constructor
      · unfold StatsBalanced at *
        rw [e1, e2, e3, e4]
        exact hb
      · rw [hsets]
        apply linesOk_set _ _ _ hl
        apply waysOk_set _ _ _ (linesOk_getD _ _ hl)
        intro hcon
        rw [hval] at hcon
        exact Bool.noConfusion hcon
    · obtain ⟨h1, h2, -⟩ := process_request_shape s a d true t s' hpr
      exact ⟨by unfold StatsBalanced at *; omega,
             process_request_linesOk s a d true t s' hpr hl⟩
  | invalidate a =>
    simp only [runMMOp, Option.some.injEq] at h
    subst h
    obtain ⟨e1, e2, e3, e4⟩ := invalidate_cache_line_stats s a
    exact ⟨by unfold StatsBalanced at *; omega,
           invalidate_cache_line_linesOk s a hl⟩
  | evict i wy =>
    simp only [runMMOp] at h
    obtain ⟨e1, e2, e3, e4, line', hv, hd, hsets⟩ := evict_cache_line_shape s i wy s' h
    constructor
    · unfold StatsBalanced at *
      rw [e1, e2, e3, e4]
      exact hb
    · rw [hsets]
      apply linesOk_set _ _ _ hl
      apply waysOk_set _ _ _ (linesOk_getD _ _ hl)
      exact fun _ => hd
  | init =>
    simp only [runMMOp, Option.some.injEq] at h
    subst h
    exact ⟨(mmInitialize_ok s).1, (mmInitialize_ok s).2⟩

lemma runMMOps_preserves (ops : List MMOp) :
    ∀ (s s' : MMState), runMMOps s ops = some s' →
      StatsBalanced s → LinesOk s.sets → StatsBalanced s' ∧ LinesOk s'.sets := by
  induction ops with
  | nil =>
    intro s s' h hb hl
    simp only [runMMOps, Option.some.injEq] at h
    subst h
    exact ⟨hb, hl⟩
  | cons op ops ih =>
    intro s s' h hb hl
    unfold runMMOps at h
    split at h
    · rename_i s2 heq
      obtain ⟨hb2, hl2⟩ := runMMOp_preserves s op s2 heq hb hl
      exact ih s2 s' h hb2 hl2
    · exact Option.noConfusion h

/-- C5: after every successful sequence of memory operations on a
freshly constructed `MemoryModel`, the statistics satisfy
`hits + misses = reads + writes`. -/
theorem cache_stats_balance (cache_size line_size latency : Nat) (ops : List MMOp)
    (s' : MMState) (h : runMMOps (mmNew cache_size line_size latency) ops = some s') :
    StatsBalanced s' :=
  (runMMOps_preserves ops _ s' h rfl
    (by
      intro st hst w hw
      unfold mmNew at hst
      dsimp only at hst
      obtain ⟨i, -, rfl⟩ := List.mem_map.mp hst
      obtain ⟨j, -, rfl⟩ := List.mem_map.mp hw
      intro _
      rfl)).1

/-- C6: after every successful sequence of memory operations on a
freshly constructed `MemoryModel`, every cache line is valid or not
dirty (an invalid line is never dirty) — preserved by initialization,
hits, miss/refill, invalidation and eviction. -/
theorem cache_lines_never_invalid_dirty (cache_size line_size latency : Nat)
    (ops : List MMOp) (s' : MMState)
    (h : runMMOps (mmNew cache_size line_size latency) ops = some s') :
    LinesOk s'.sets :=
  (runMMOps_preserves ops _ s' h rfl
    (by
      intro st hst w hw
      unfold mmNew at hst
      dsimp only at hst
      obtain ⟨i, -, rfl⟩ := List.mem_map.mp hst
      obtain ⟨j, -, rfl⟩ := List.mem_map.mp hw
      intro _
      rfl)).2

/-- Closed witness for `cache_stats_balance`: a single aligned write on
a 1 KiB cache with 64-byte lines. -/
theorem cache_stats_balance_witness :
    StatsBalanced ((runMMOps (mmNew 1024 64 10) [MMOp.request 4 7 true]).getD
      (mmNew 1024 64 10)) :=
  cache_stats_balance 1024 64 10 [MMOp.request 4 7 true] _ rfl

/-- Closed witness for `cache_lines_never_invalid_dirty`: an aligned
read followed by an eviction. -/
theorem cache_lines_never_invalid_dirty_witness :
    LinesOk ((runMMOps (mmNew 1024 64 10) [MMOp.request 8 3 false, MMOp.evict 0 0]).getD
      (mmNew 1024 64 10)).sets :=
  cache_lines_never_invalid_dirty 1024 64 10 [MMOp.request 8 3 false, MMOp.evict 0 0] _ rfl

/-! ## Alignment checking (`dpi_wrapper.cpp` / `memory_model.cpp`) -/

/-- `DPIWrapper::validate_address`: `none` models the
`std::invalid_argument` throw on `address % 4 != 0`. -/
def validate_address (address : Nat) : Option Unit :=
  if address % 4 ≠ 0 then none else some ()

/-- The specification's natural-alignment predicate, written from the
spec's words: a byte/halfword/word access is naturally aligned when
its address is a multiple of its size. -/
def naturally_aligned (address size : Nat) : Bool :=
  (size == 1 || size == 2 || size == 4) && (address % size == 0)

/-- C7 counterexample: the halfword access at address 2 is naturally
aligned to its size, yet `validate_address` rejects it, the memory
model's alignment assertion `check_alignment(address, 4)` fails, and
`process_request` aborts — contradicting "for an aligned access no
AlignmentFault is raised". -/
theorem aligned_halfword_rejected_counterexample :
    naturally_aligned 2 2 = true ∧
    validate_address 2 = none ∧
    check_alignment 2 4 = false ∧
    process_request (mmNew 1024 64 10) 2 0 false = none := by
  refine ⟨rfl, rfl, rfl, ?_⟩
  rfl

/-- C7 amended: the code checks 4-byte (word) alignment for every
access regardless of its size: `validate_address` throws exactly when
`address % 4 ≠ 0`, and `process_request`'s assertion
`check_alignment(address, 4)` aborts it under exactly the same
condition.  Natural alignment to a smaller size does not suffice. -/
theorem alignment_is_word_alignment (address : Nat) :
    (validate_address address = none ↔ address % 4 ≠ 0) ∧
    (check_alignment address 4 = true ↔ address % 4 = 0) ∧
    (∀ s d w, process_request s address d w = none ↔ address % 4 ≠ 0) := by
  refine ⟨?_, ?_, ?_⟩
  · unfold validate_address
    split
    · simpa using ‹address % 4 ≠ 0›
    · simpa using ‹¬address % 4 ≠ 0›
  · unfold check_alignment
    exact ⟨fun h => by simpa using h, fun h => by simpa using h⟩
  · intro s d w
    unfold process_request
    dsimp only
    by_cases hal : check_alignment address 4 = false
    · rw [if_pos hal]
      unfold check_alignment at hal
      simp only [iff_true]
      simpa using hal
    · rw [if_neg hal]
      unfold check_alignment at hal
      constructor
      · intro hcon
        exact Option.noConfusion hcon
      · intro hne
        exact absurd (by simpa using hne) hal

/-- Closed witness for `alignment_is_word_alignment` at address 8. -/
theorem alignment_is_word_alignment_witness :
    (validate_address 8 = none ↔ 8 % 4 ≠ 0) ∧
    (check_alignment 8 4 = true ↔ 8 % 4 = 0) ∧
    (∀ s d w, process_request s 8 d w = none ↔ 8 % 4 ≠ 0) :=
  alignment_is_word_alignment 8

/-! ## Simulation engine (`sim_engine.h` / `sim_engine.cpp`)

The event queue is
`std::priority_queue<SimEvent, std::vector<SimEvent>, std::greater<SimEvent>>`
with `SimEvent::operator>` comparing scheduled times only — a binary
min-heap on `time`, modelled below as a list in the usual array
layout with push/pop sifting.  The C++ standard leaves the relative
pop order of equal-time events unspecified (it falls out of the
library's sift implementation); the model's sift realizes one such
order, and no theorem below depends on the order of equal-time
events.  The `double` statistics fields (`ipc`, `cache_hit_rate`)
computed by `calculate_performance_metrics` are floating point and are
not modelled; no claim depends on them. -/

/-- The `EventType` enumeration of `sim_engine.h`. -/
inductive EventType where
  | MEMORY_REQUEST | MEMORY_RESPONSE | INSTRUCTION_FETCH | WARP_COMPLETE | SIMULATION_END
  deriving DecidableEq, Repr

/-- The `MemoryTransaction` structure of `sim_engine.h`. -/
structure MemoryTransaction where
  address     : Nat
  data        : Nat
  is_write    : Bool
  size        : Nat
  warp_id     : Nat
  thread_mask : Nat
  deriving DecidableEq, Repr

/-- The `void*` event payload, discriminated by how `process_event`
casts it. -/
inductive EventData where
  | trans (t : MemoryTransaction)
  | warp (warp_id : Nat)
  | null
  deriving DecidableEq, Repr

/-- The `SimEvent` structure of `sim_engine.h`. -/
structure SimEvent where
  type : EventType
  time : Nat
  data : EventData
  deriving DecidableEq, Repr

/-- `SimEvent::operator>`: compares the scheduled times only. -/
def SimEvent.gtOp (a b : SimEvent) : Bool := decide (a.time > b.time)

/-- A placeholder event for out-of-range heap reads (never selected on
in-range indices). -/
def defaultSimEvent : SimEvent := { type := .SIMULATION_END, time := 0, data := .null }

/-- The `SimulationEngine::WarpState` structure of `sim_engine.h`. -/
structure WarpState where
  pc          : Nat
  thread_mask : Nat
  active      : Bool
  last_active : Nat
  deriving DecidableEq, Repr

/-- The integer fields of `SimStats` (`sim_engine.h`); the `double`
fields `ipc` and `cache_hit_rate` are floating point and are not
modelled. -/
structure SimStats where
  total_cycles          : Nat
  instructions_executed : Nat
  memory_requests       : Nat
  cache_hits            : Nat
  cache_misses          : Nat
  deriving DecidableEq, Repr

/-- The `SimulationEngine::TraceEntry` structure of `sim_engine.h`. -/
structure TraceEntry where
  time    : Nat
  type    : EventType
  warp_id : Nat
  address : Nat
  data    : Nat
  deriving DecidableEq, Repr

/-- `SimulationEngine::TRACE_RESERVE_SIZE` (`sim_engine.h`). -/
def TRACE_RESERVE_SIZE : Nat := 10000

/-- State of a `SimulationEngine` object.  `event_queue` is the
priority queue's underlying vector in binary-heap array layout. -/
structure EngineState where
  num_warps        : Nat
  running          : Bool
  current_time     : Nat
  memory_model     : MMState
  warp_states      : List WarpState
  event_queue      : List SimEvent
  stats            : SimStats
  simulation_trace : List TraceEntry

/-- Sift the element at index `i` up towards the root, swapping while
the parent is greater per `SimEvent::operator>` (the `push_heap` phase
of `priority_queue::push` with `std::greater`). -/
def heapSiftUp : Nat → List SimEvent → Nat → List SimEvent
  | 0, h, _ => h
  | fuel + 1, h, i =>
      if i = 0 then h
      else
        let p := (i - 1) / 2
        let ev := h.getD i defaultSimEvent
        let pv := h.getD p defaultSimEvent
        if SimEvent.gtOp pv ev then
          heapSiftUp fuel ((h.set i pv).set p ev) p
        else h

/-- `priority_queue::push`: append, then sift up. -/
def heapPush (h : List SimEvent) (e : SimEvent) : List SimEvent :=
  heapSiftUp (h.length + 1) (h ++ [e]) h.length

/-- Sift the element at index `i` down, swapping with its
smallest-time child while that child has a strictly smaller time (one
realization of the equal-time order `std::priority_queue` leaves
unspecified; no theorem depends on it). -/
def heapSiftDown : Nat → List SimEvent → Nat → List SimEvent
  | 0, h, _ => h
  | fuel + 1, h, i =>
      let n := h.length
      let l := 2 * i + 1
      let r := 2 * i + 2
      if l ≥ n then h
      else
        let c :=
          if r < n ∧ SimEvent.gtOp (h.getD l defaultSimEvent) (h.getD r defaultSimEvent)
          then r else l
        let cv := h.getD c defaultSimEvent
        let iv := h.getD i defaultSimEvent
        if SimEvent.gtOp iv cv then
          heapSiftDown fuel ((h.set i cv).set c iv) c
        else h

/-- `priority_queue::top` + `pop` (`pop_heap` then `pop_back`): return
the root, move the last element to the root and sift it down. -/
def heapPop : List SimEvent → Option (SimEvent × List SimEvent)
  | [] => none
  | top :: rest =>
      match rest with
      | [] => some (top, [])
      | _ :: _ =>
          let h := rest.getLastD defaultSimEvent :: rest.dropLast
          some (top, heapSiftDown h.length h 0)

/-- `SimulationEngine::schedule_event`: push an event scheduled at
`current_time + delay`. -/
def schedule_event (s : EngineState) (type : EventType) (delay : Nat)
    (data : EventData) : EngineState :=
  { s with
      event_queue := heapPush s.event_queue
        { type := type, time := s.current_time + delay, data := data } }

/-- The function-local static `instance` pointer of
`SimulationEngine::memory_request_callback`: initialized to `nullptr`
and never assigned anywhere in the source, so it never points at the
engine. -/
def memory_request_callback_instance_set : Bool := false

/-- The function-local static `instance` pointer of
`SimulationEngine::instruction_complete_callback`: likewise initialized
to `nullptr` and never assigned. -/
def instruction_complete_callback_instance_set : Bool := false

/-- `SimulationEngine::memory_request_callback`: builds a transaction
and, were the static instance pointer non-null, would schedule a
`MEMORY_REQUEST` one cycle ahead on it. -/
def memory_request_callback (engine : EngineState) (address data : Nat)
    (is_write : Bool) (warp_id thread_mask : Nat) : EngineState :=
  let trans : MemoryTransaction :=
    { address := address, data := data, is_write := is_write, size := 4
      warp_id := warp_id, thread_mask := thread_mask }
  if memory_request_callback_instance_set then
    schedule_event engine .MEMORY_REQUEST 1 (.trans trans)
  else engine

/-- `SimulationEngine::instruction_complete_callback`: were the static
instance pointer non-null, would advance the warp's PC, classify the
instruction, and schedule `WARP_COMPLETE` or the next fetch. -/
def instruction_complete_callback (engine : EngineState)
    (warp_id pc instruction : Nat) : EngineState :=
  if instruction_complete_callback_instance_set then
    let w := engine.warp_states.getD warp_id
      { pc := 0, thread_mask := 0, active := false, last_active := 0 }
    let engine :=
      { engine with
          warp_states := engine.warp_states.set warp_id
            { w with pc := pc + 4, last_active := engine.current_time } }
    let is_branch := instruction &&& 0x7F == 0x63
    let is_exit := instruction &&& 0x7F == 0x73
    if is_exit then
      schedule_event engine .WARP_COMPLETE 1 (.warp warp_id)
    else
      schedule_event engine .INSTRUCTION_FETCH (if is_branch then 3 else 1) (.warp warp_id)
  else engine

/-- `SimulationEngine::log_event`. -/
def log_event (s : EngineState) (e : SimEvent) : EngineState :=
  if s.simulation_trace.length < TRACE_RESERVE_SIZE then
    let entry : TraceEntry :=
      match e.type, e.data with
      | .MEMORY_REQUEST, .trans t =>
          { time := e.time, type := e.type, warp_id := t.warp_id
            address := t.address, data := t.data }
      | .MEMORY_RESPONSE, .trans t =>
          { time := e.time, type := e.type, warp_id := t.warp_id
            address := t.address, data := t.data }
      | .INSTRUCTION_FETCH, .warp w =>
          { time := e.time, type := e.type, warp_id := w, address := 0, data := 0 }
      | .WARP_COMPLETE, .warp w =>
          { time := e.time, type := e.type, warp_id := w, address := 0, data := 0 }
      | _, _ =>
          { time := e.time, type := e.type, warp_id := 0, address := 0, data := 0 }
    { s with simulation_trace := s.simulation_trace ++ [entry] }
  else s

/-- `SimulationEngine::process_memory_request`.  `none` models the
memory model's alignment assertion aborting. -/
def process_memory_request (s : EngineState) (t : MemoryTransaction) :
    Option EngineState :=
  let s :=
    { s with
        stats := { s.stats with memory_requests := s.stats.memory_requests + 1 } }
  match process_request s.memory_model t.address t.data t.is_write with
  | none => none
  | some (response_time, mm) =>
      let s := { s with memory_model := mm }
      let s :=
        if t.is_write = false then
          schedule_event s .MEMORY_RESPONSE response_time (.trans t)
        else s
      let w := s.warp_states.getD t.warp_id
        { pc := 0, thread_mask := 0, active := false, last_active := 0 }
      some
        { s with
            warp_states := s.warp_states.set t.warp_id
              { w with last_active := s.current_time } }

/-- `SimulationEngine::process_memory_response`: notify the (null)
static callback, then schedule the next fetch. -/
def process_memory_response (s : EngineState) (t : MemoryTransaction) : EngineState :=
  let s := memory_request_callback s t.address t.data false t.warp_id t.thread_mask
  schedule_event s .INSTRUCTION_FETCH 1 (.warp t.warp_id)

/-- `SimulationEngine::process_instruction_fetch`. -/
def process_instruction_fetch (s : EngineState) (warp_id : Nat) :
    Option EngineState :=
  let w := s.warp_states.getD warp_id
    { pc := 0, thread_mask := 0, active := false, last_active := 0 }
  if w.active = false then some s
  else
    match read_instruction s.memory_model w.pc with
    | none => none
    | some (instruction, mm) =>
        let s := { s with memory_model := mm }
        let s :=
          { s with
              stats := { s.stats with
                instructions_executed := s.stats.instructions_executed + 1 } }
        let s := instruction_complete_callback s warp_id w.pc instruction
        let s :=
          { s with
              warp_states := s.warp_states.set warp_id { w with pc := w.pc + 4 } }
        some (schedule_event s .INSTRUCTION_FETCH 4 (.warp warp_id))

/-- `SimulationEngine::process_warp_complete`. -/
def process_warp_complete (s : EngineState) (warp_id : Nat) : EngineState :=
  let w := s.warp_states.getD warp_id
    { pc := 0, thread_mask := 0, active := false, last_active := 0 }
  let s :=
    { s with
        warp_states := s.warp_states.set warp_id { w with active := false } }
  if s.warp_states.all (fun w => !w.active) then
    schedule_event s .SIMULATION_END 1 .null
  else s

/-- `SimulationEngine::process_event`: log and dispatch. -/
def process_event (s : EngineState) (e : SimEvent) : Option EngineState :=
  let s := log_event s e
  match e.type, e.data with
  | .MEMORY_REQUEST, .trans t => process_memory_request s t
  | .MEMORY_RESPONSE, .trans t => some (process_memory_response s t)
  | .INSTRUCTION_FETCH, .warp w => process_instruction_fetch s w
  | .WARP_COMPLETE, .warp w => some (process_warp_complete s w)
  | .SIMULATION_END, _ => some { s with running := false }
  | _, _ => some s

/-- `SimulationEngine::update_statistics`. -/
def update_statistics (s : EngineState) : EngineState :=
  { s with
      stats := { s.stats with
        total_cycles := s.current_time
        cache_hits := s.memory_model.stats_hits
        cache_misses := s.memory_model.stats_misses } }

/-- Modelled from the spec: the error taxonomy of §7.  The source
defines no such error kinds and `run()` signals nothing; the type
exists so that the claim about `CycleLimitExceeded` is statable. -/
inductive SimErrorKind where
  | AlignmentFault | IllegalInstruction | DivideByZero | DivergenceStackOverflow
  | AtomicBackpressure | BarrierTableFull | InvalidAddress | CycleLimitExceeded
  | ConfigInvalid
  deriving DecidableEq, Repr

/-- How a `run()` terminates in the model. -/
inductive RunOutcome where
  | normal
  | assertFailed
  | fuelExhausted
  | fails (e : SimErrorKind)
  deriving DecidableEq, Repr

/-- The `while` loop of `SimulationEngine::run`, fuelled (the C++ loop
is unbounded; `fuelExhausted` is a modelling artifact, never a code
behaviour).  One iteration pops the queue's top event, advances
`current_time`, processes the event, refreshes statistics every 1000
cycles, and clears `running_` when the hardcoded 1,000,000-cycle limit
is reached or every warp is inactive. -/
def runLoop : Nat → EngineState → EngineState × RunOutcome
  | 0, s => (s, .fuelExhausted)
  | fuel + 1, s =>
      if s.running = true ∧ s.event_queue ≠ [] then
        match heapPop s.event_queue with
        | none => (s, .normal)
        | some (e, q) =>
            let s := { s with event_queue := q, current_time := e.time }
            match process_event s e with
            | none => (s, .assertFailed)
            | some s =>
                let s := if s.current_time % 1000 == 0 then update_statistics s else s
                let s :=
                  if s.current_time ≥ 1000000 ∨ s.warp_states.all (fun w => !w.active) then
                    { s with running := false }
                  else s
                runLoop fuel s
      else (s, .normal)

/-- `SimulationEngine::run` (`calculate_performance_metrics` touches
only the unmodelled floating-point fields). -/
def run (s : EngineState) (fuel : Nat) : EngineState × RunOutcome :=
  runLoop fuel { s with running := true }

lemma heapPop_cons (e : SimEvent) (rest : List SimEvent) :
    heapPop (e :: rest) ≠ none := by
  cases rest <;> · intro hcon; exact Option.noConfusion hcon

lemma runLoop_outcome (fuel : Nat) : ∀ (s : EngineState),
    ((runLoop fuel s).2 = RunOutcome.normal ∨
     (runLoop fuel s).2 = RunOutcome.assertFailed ∨
     (runLoop fuel s).2 = RunOutcome.fuelExhausted) ∧
    ((runLoop fuel s).2 = RunOutcome.normal →
      (runLoop fuel s).1.running = false ∨ (runLoop fuel s).1.event_queue = []) := by
  induction fuel with
  | zero =>
    intro s
    exact ⟨.inr (.inr rfl), fun h => RunOutcome.noConfusion h⟩
  | succ fuel ih =>
    intro s
    unfold runLoop
    by_cases hc : s.running = true ∧ s.event_queue ≠ []
    · rw [if_pos hc]
      obtain ⟨hr, hq⟩ := hc
      cases hqe : s.event_queue with
      | nil => exact absurd hqe hq
      | cons e rest =>
        cases hpop : heapPop (e :: rest) with
        | none => exact absurd hpop (heapPop_cons e rest)
        | some p =>
          obtain ⟨ev, q⟩ := p
          dsimp only
          cases hpe : process_event
              { s with event_queue := q, current_time := ev.time } ev with
          | none => exact ⟨.inr (.inl rfl), fun h => RunOutcome.noConfusion h⟩
          | some s2 => exact ih _
    · rw [if_neg hc]
      refine ⟨.inl rfl, fun _ => ?_⟩
      rcases not_and_or.mp hc with h | h
      · exact .inl (Bool.not_eq_true s.running ▸ h)
      · exact .inr (not_not.mp h)

/-- C8 amended: `run()` iterates until the event queue is empty or
`running_` is cleared — the latter happens when a `SimulationEnd`
event is processed, when `current_time` reaches the hardcoded
1,000,000-cycle limit, or when every warp is inactive.  Its outcome is
always normal termination, an aborted C `assert` (modelled), or model
fuel exhaustion; it never raises `CycleLimitExceeded` (no such error
exists in the source). -/
theorem run_never_fails_cycle_limit (fuel : Nat) (s : EngineState) :
    ((run s fuel).2 = RunOutcome.normal ∨
     (run s fuel).2 = RunOutcome.assertFailed ∨
     (run s fuel).2 = RunOutcome.fuelExhausted) ∧
    ((run s fuel).2 ≠ RunOutcome.fails SimErrorKind.CycleLimitExceeded) ∧
    ((run s fuel).2 = RunOutcome.normal →
      (run s fuel).1.running = false ∨ (run s fuel).1.event_queue = []) := by
  obtain ⟨h1, h2⟩ := runLoop_outcome fuel { s with running := true }
  refine ⟨h1, ?_, h2⟩
  rcases h1 with h | h | h <;> · rw [run] at *; rw [h]; intro hcon; exact RunOutcome.noConfusion hcon

/-- A concrete engine: one active warp, one `INSTRUCTION_FETCH` event
scheduled at cycle 2,000,000 — past the hardcoded cap. -/
def demoEngine : EngineState :=
  { num_warps := 1
    running := false
    current_time := 0
    memory_model := mmNew 1024 64 10
    warp_states := [{ pc := 0, thread_mask := 4294967295, active := true, last_active := 0 }]
    event_queue := [{ type := .INSTRUCTION_FETCH, time := 2000000, data := .warp 0 }]
    stats := { total_cycles := 0, instructions_executed := 0, memory_requests := 0
               cache_hits := 0, cache_misses := 0 }
    simulation_trace := [] }

/-- C8 counterexample: running `demoEngine` takes the simulation to
cycle 2,000,000 — beyond the configured cap — yet `run` returns
normally, with no `CycleLimitExceeded` (or any other) error. -/
theorem run_beyond_cap_returns_normally_counterexample :
    1000000 ≤ (run demoEngine 10).1.current_time ∧
    (run demoEngine 10).2 = RunOutcome.normal := by
  constructor
  · decide
  · rfl

/-- Closed witness for `run_never_fails_cycle_limit` at `demoEngine`
with fuel 10. -/
theorem run_never_fails_cycle_limit_witness :
    ((run demoEngine 10).2 = RunOutcome.normal ∨
     (run demoEngine 10).2 = RunOutcome.assertFailed ∨
     (run demoEngine 10).2 = RunOutcome.fuelExhausted) ∧
    ((run demoEngine 10).2 ≠ RunOutcome.fails SimErrorKind.CycleLimitExceeded) ∧
    ((run demoEngine 10).2 = RunOutcome.normal →
      (run demoEngine 10).1.running = false ∨ (run demoEngine 10).1.event_queue = []) :=
  run_never_fails_cycle_limit 10 demoEngine

/-- C10: the function-local static `instance` pointers of
`SimulationEngine::memory_request_callback` and
`SimulationEngine::instruction_complete_callback` are initialized to
`nullptr` and never assigned, so every call to either callback
schedules no event and leaves the engine — event queue, warp states
and statistics included — unchanged. -/
theorem callbacks_are_no_ops :
    memory_request_callback_instance_set = false ∧
    instruction_complete_callback_instance_set = false ∧
    (∀ (engine : EngineState) (address data : Nat) (is_write : Bool)
        (warp_id thread_mask : Nat),
      memory_request_callback engine address data is_write warp_id thread_mask
        = engine) ∧
    (∀ (engine : EngineState) (warp_id pc instruction : Nat),
      instruction_complete_callback engine warp_id pc instruction = engine) :=
  ⟨rfl, rfl, fun _ _ _ _ _ _ => rfl, fun _ _ _ _ => rfl⟩

end GpuSim
